import Mathlib

/-!
# MinDyn: the tiered execution engine

A shallow embedding of the class `MinDynJIT` (`src/JIT.h`, `src/JIT.cpp`): the call-count
profiler, the compiled-code cache, the threshold policy of `execute` and the tree-walking
interpreter `interpret` / `interpretExpr`, and of the driver loop `run` (`src/main.cpp`).

Conventions of the embedding.

* The three `std::map` members are finite maps, modelled as functions `String → Option _`.
* The C++ functions return a `double` and write diagnostics to `stderr`; they have no other
  error channel.  Every embedded function therefore returns its `double` together with the
  list of observable events of the call (`Event`): the `stderr` lines and the calls made to
  the LLVM backend.
* The arithmetic of `double` is a parameter (`DoubleOps`); every theorem holds for any choice
  of it.  `Dbl` is one concrete choice, used to evaluate examples.
* LLVM (`LLJIT`, the code generator behind `FunctionAST::codegen`) is a parameter
  (`Backend`), a state machine whose answers the engine only consumes.
* `FunctionCallCounts` holds C++ `int`s of 32 bits.  `++` on the value `INT_MAX` overflows;
  the embedding gives it the two's complement result `INT_MIN` (`intIncr`).
-/

namespace MinDyn

/-! ## The type `double` -/

/-- The operations on `double` used by `interpretExpr`: the constants `0.0` (the literal `0`
returned on the error paths, and `false` converted to `double`) and `1.0` (`true` converted
to `double`), the four arithmetic operators and the two comparisons. -/
structure DoubleOps (D : Type) where
  zero : D
  one : D
  add : D → D → D
  sub : D → D → D
  mul : D → D → D
  div : D → D → D
  lt : D → D → Bool
  gt : D → D → Bool

/-- A concrete value domain for `double`, with exact arithmetic: a finite value is the
reduced fraction `(-1)^neg * num / den` (both zeros are present), next to the two infinities
and NaN.  Its operations follow IEEE-754 for signs, zeros, infinities and NaN and do not
round, so they agree with binary64 whenever the exact result is representable, as it is for
the small integers of the examples below. -/
inductive Dbl where
  | fin (neg : Bool) (num den : Nat)
  | inf (neg : Bool)
  | nan
  deriving DecidableEq, Repr

namespace Dbl

/-- The reduced fraction `(-1)^neg * n / d`. -/
def mk (neg : Bool) (n d : Nat) : Dbl :=
  fin neg (n / Nat.gcd n d) (d / Nat.gcd n d)

/-- The integer `z` as a `double`. -/
def ofInt (z : Int) : Dbl :=
  fin (decide (z < 0)) z.natAbs 1

/-- The numerator of a finite value, with its sign. -/
def signed (neg : Bool) (n : Nat) : Int :=
  if neg then -(n : Int) else (n : Int)

/-- Unary minus. -/
def negate : Dbl → Dbl
  | fin s n d => fin (!s) n d
  | inf s => inf (!s)
  | nan => nan

/-- Addition. An exact zero sum is `-0` only when both operands are negative. -/
def add : Dbl → Dbl → Dbl
  | nan, _ => nan
  | _, nan => nan
  | inf a, inf b => if a = b then inf a else nan
  | inf a, fin _ _ _ => inf a
  | fin _ _ _, inf b => inf b
  | fin s1 n1 d1, fin s2 n2 d2 =>
    let z : Int := signed s1 n1 * (d2 : Int) + signed s2 n2 * (d1 : Int)
    if z = 0 then fin (s1 && s2) 0 1 else mk (decide (z < 0)) z.natAbs (d1 * d2)

/-- Subtraction, `x - y = x + (-y)`. -/
def sub (x y : Dbl) : Dbl :=
  add x (negate y)

/-- Multiplication; `0 * inf` is NaN. -/
def mul : Dbl → Dbl → Dbl
  | nan, _ => nan
  | _, nan => nan
  | inf a, inf b => inf (xor a b)
  | inf a, fin s n _ => if n = 0 then nan else inf (xor a s)
  | fin s n _, inf b => if n = 0 then nan else inf (xor s b)
  | fin s1 n1 d1, fin s2 n2 d2 => mk (xor s1 s2) (n1 * n2) (d1 * d2)

/-- Division; a finite nonzero value divided by a zero is an infinity, `0 / 0` and
`inf / inf` are NaN. -/
def div : Dbl → Dbl → Dbl
  | nan, _ => nan
  | _, nan => nan
  | inf _, inf _ => nan
  | inf a, fin s _ _ => inf (xor a s)
  | fin s _ _, inf b => fin (xor s b) 0 1
  | fin s1 n1 d1, fin s2 n2 d2 =>
    if n2 = 0 then (if n1 = 0 then nan else inf (xor s1 s2))
    else mk (xor s1 s2) (n1 * d2) (d1 * n2)

/-- The comparison `x < y`; false as soon as one side is NaN. -/
def lt : Dbl → Dbl → Bool
  | nan, _ => false
  | _, nan => false
  | inf a, inf b => a && !b
  | inf a, fin _ _ _ => a
  | fin _ _ _, inf b => !b
  | fin s1 n1 d1, fin s2 n2 d2 =>
    decide (signed s1 n1 * (d2 : Int) < signed s2 n2 * (d1 : Int))

/-- The operations of `Dbl`. -/
def ops : DoubleOps Dbl where
  zero := ofInt 0
  one := ofInt 1
  add := add
  sub := sub
  mul := mul
  div := div
  lt := lt
  gt := fun x y => lt y x

end Dbl

/-! ## The expression tree -/

/-- Modelled from the spec: the header `AST.h` is not among the sources.  The interpreter
distinguishes `NumberExprAST` (field `Val`) and `BinaryExprAST` (fields `Op`, `LHS`, `RHS`)
by `dynamic_cast`; the remaining kinds are the ones its comment and the spec name (variable
reference, function call, conditional), none of which it inspects. -/
inductive ExprAST (D : Type) where
  | Number (Val : D)
  | Variable (Name : String)
  | Binary (Op : Char) (LHS RHS : ExprAST D)
  | Call (Callee : String) (Args : List (ExprAST D))
  | If (Cond Then Else : ExprAST D)

/-- Modelled from the spec: `PrototypeAST` of the missing `AST.h`, a name (`getName()`) and
the ordered parameter names. -/
structure PrototypeAST where
  Name : String
  Args : List String

/-- Modelled from the spec: `FunctionAST` of the missing `AST.h`, with the members `Proto`
and `Body` that `JIT.cpp` reads. -/
structure FunctionAST (D : Type) where
  Proto : PrototypeAST
  Body : ExprAST D

/-! ## Observable events -/

/-- What one call lets an observer see: the lines written to `stderr` (`log…`) and the calls
into the LLVM backend. -/
inductive Event where
  /-- The line `Executing JIT'd function '%s'`. -/
  | logExecJIT (FuncName : String)
  /-- The line `JIT threshold met for '%s'. Compiling to native code...`. -/
  | logThresholdMet (FuncName : String)
  /-- The line `Error: Unknown function '%s' called.` -/
  | logUnknownFunction (FuncName : String)
  /-- The line `Error adding module to JIT`. -/
  | logAddModuleError
  /-- The line `Error looking up JIT'd symbol`. -/
  | logLookupError
  /-- The line `Executing '%s' via interpreter (call #%d)`. -/
  | logInterpreter (FuncName : String) (count : Int)
  /-- The line `Interpreter Error: Unknown function '%s'`. -/
  | logInterpUnknown (FuncName : String)
  /-- The line `Interpreter Error: Unsupported expression type.` -/
  | logUnsupported
  /-- Step 1 of the compilation: fresh `TheContext`, `TheModule`, `Builder`. -/
  | initGlobals
  /-- Step 2: `It->second->codegen()`. -/
  | codegen (FuncName : String)
  /-- Step 3: `TheJIT->addIRModule(...)`. -/
  | addIRModule
  /-- Step 4: `TheJIT->lookup(FuncName)`. -/
  | lookup (FuncName : String)
  /-- The call `FP()` of a native routine through its address. -/
  | callNative (FPtr : Nat)
  deriving DecidableEq, Repr

/-- The events by which the engine asks the backend to produce code. -/
def Event.isCodeGen : Event → Bool
  | .codegen _ => true
  | .addIRModule => true
  | .lookup _ => true
  | _ => false

/-- The lines the interpreter writes: the line announcing the interpreter path and the two
interpreter errors. -/
def Event.isInterp : Event → Bool
  | .logInterpreter _ _ => true
  | .logInterpUnknown _ => true
  | .logUnsupported => true
  | _ => false

/-! ## The interpreter -/

/-- The variable bindings `std::map<std::string, double>` handed to `interpretExpr`. -/
abbrev Context (D : Type) := String → Option D

/-- The empty `context` that `interpret` creates for a top-level call. -/
def emptyContext (D : Type) : Context D := fun _ => none

/-- The `switch (Bin->Op)` of `interpretExpr` (`JIT.cpp`, lines 108-115) on the operand
values `L` and `R`: the value returned by the matching `case`, or `none` when no `case`
matches and control leaves the `switch`.  A comparison is a `bool` converted to `double`. -/
def switchOp {D : Type} (ops : DoubleOps D) (Op : Char) (L R : D) : Option D :=
  if Op = '+' then some (ops.add L R)
  else if Op = '-' then some (ops.sub L R)
  else if Op = '*' then some (ops.mul L R)
  else if Op = '/' then some (ops.div L R)
  else if Op = '<' then some (if ops.lt L R then ops.one else ops.zero)
  else if Op = '>' then some (if ops.gt L R then ops.one else ops.zero)
  else none

/-- `MinDynJIT::interpretExpr` (`JIT.cpp`, lines 99-121).  A number yields `Val`.  A binary
node first evaluates `LHS`, then `RHS`, then switches on `Op`; an operator outside the six
cases leaves the `switch` and the `if` and reaches the final `fprintf` and `return 0`, as
does every node that is neither a number nor a binary node.  `context` is passed along and
never read or written. -/
def MinDynJIT.interpretExpr {D : Type} (ops : DoubleOps D) :
    ExprAST D → Context D → D × List Event
  | .Number Val, _ => (Val, [])
  | .Binary Op LHS RHS, context =>
    let L := MinDynJIT.interpretExpr ops LHS context
    let R := MinDynJIT.interpretExpr ops RHS context
    match switchOp ops Op L.1 R.1 with
    | some v => (v, L.2 ++ R.2)
    | none => (ops.zero, L.2 ++ R.2 ++ [Event.logUnsupported])
  | .Variable _, _ => (ops.zero, [Event.logUnsupported])
  | .Call _ _, _ => (ops.zero, [Event.logUnsupported])
  | .If _ _ _, _ => (ops.zero, [Event.logUnsupported])

/-! ## The engine -/

/-- The LLVM side of `execute`, a parameter of the embedding.  `σ` is the state of `TheJIT`
together with the code generation globals `TheContext`, `TheModule`, `Builder`.  Each field
is one of the steps `execute` performs: the re-creation of the globals, `codegen()` on the
function (its return value is discarded by `execute`), `addIRModule` (the flag is `true` when
an `Err` comes back), `lookup` (`none` when no symbol is found, otherwise its address) and
the call `FP()` of the routine at an address, which produces a `double`. -/
structure Backend (D σ : Type) where
  initGlobals : σ → σ
  codegen : FunctionAST D → σ → σ
  addIRModule : σ → Bool × σ
  lookup : String → σ → Option Nat × σ
  callNative : Nat → σ → D

/-- The members of the class `MinDynJIT` (`JIT.h`, lines 12-22).  A `void*` is an address. -/
structure MinDynJIT (D σ : Type) where
  TheJIT : σ
  FunctionCallCounts : String → Option Int
  FunctionASTs : String → Option (FunctionAST D)
  JITtedFunctions : String → Option Nat

/-- The constant `JIT_THRESHOLD` (`JIT.h`, line 16). -/
def JIT_THRESHOLD : Int := 5

/-- The assignment `m[k] = v` on a `std::map`. -/
def mapSet {α : Type} (m : String → Option α) (k : String) (v : α) : String → Option α :=
  fun k1 => if k1 = k then some v else m k1

/-- The value `FunctionCallCounts[FuncName]` reads: `operator[]` gives `0` for an absent
key. -/
def MinDynJIT.callCount {D σ : Type} (J : MinDynJIT D σ) (FuncName : String) : Int :=
  (J.FunctionCallCounts FuncName).getD 0

/-- The engine right after construction: `TheJIT` as `LLJITBuilder().create()` returned it
and three empty maps. -/
def MinDynJIT.new (D : Type) {σ : Type} (jit : σ) : MinDynJIT D σ where
  TheJIT := jit
  FunctionCallCounts := fun _ => none
  FunctionASTs := fun _ => none
  JITtedFunctions := fun _ => none

/-- `MinDynJIT::addFunction` (`JIT.cpp`, lines 23-25):
`FunctionASTs[FuncAST->Proto->getName()] = std::move(FuncAST)`. -/
def MinDynJIT.addFunction {D σ : Type} (J : MinDynJIT D σ) (FuncAST : FunctionAST D) :
    MinDynJIT D σ :=
  { J with FunctionASTs := mapSet J.FunctionASTs FuncAST.Proto.Name FuncAST }

/-- `MinDynJIT::interpret` (`JIT.cpp`, lines 89-97): the registry lookup, then
`interpretExpr` on the body with an empty `context`.  It writes to no member. -/
def MinDynJIT.interpret {D σ : Type} (ops : DoubleOps D) (J : MinDynJIT D σ)
    (FuncName : String) : D × List Event :=
  match J.FunctionASTs FuncName with
  | none => (ops.zero, [Event.logInterpUnknown FuncName])
  | some F => MinDynJIT.interpretExpr ops F.Body (emptyContext D)

/-- What a call of `execute` leaves behind: the returned `double`, the engine afterwards and
the events of the call in order. -/
structure ExecResult (D σ : Type) where
  value : D
  state : MinDynJIT D σ
  trace : List Event

/-- The largest value of the C++ type `int`, `2^31 - 1`. -/
def INT_MAX : Int := 2147483647

/-- The smallest value of the C++ type `int`, `-2^31`. -/
def INT_MIN : Int := -2147483648

/-- The value of an `int` after `++`: one more, and at `INT_MAX` the overflow, which wraps
around to `INT_MIN`.  On the values of `int` this is `(c + 1 + 2^31) % 2^32 - 2^31`
(`intIncr_eq_mod`). -/
def intIncr (c : Int) : Int :=
  if c = INT_MAX then INT_MIN else c + 1

/-- The statement `FunctionCallCounts[FuncName]++` (`JIT.cpp`, line 29) on the `int` stored
under `FuncName`. -/
def MinDynJIT.countCall {D σ : Type} (J : MinDynJIT D σ) (FuncName : String) :
    MinDynJIT D σ :=
  { J with FunctionCallCounts :=
      mapSet J.FunctionCallCounts FuncName (intIncr (J.callCount FuncName)) }

/-- `MinDynJIT::execute` (`JIT.cpp`, lines 27-84).  `J1` is the engine after
`FunctionCallCounts[FuncName]++`.  Then, in the order of the source: the cache test, the
threshold test with the five compilation steps and their three early returns, and the
interpreter. -/
def MinDynJIT.execute {D σ : Type} (ops : DoubleOps D) (be : Backend D σ)
    (J : MinDynJIT D σ) (FuncName : String) : ExecResult D σ :=
  let J1 : MinDynJIT D σ := J.countCall FuncName
  match J1.JITtedFunctions FuncName with
  | some FPtr =>
    ⟨be.callNative FPtr J1.TheJIT, J1, [Event.logExecJIT FuncName, Event.callNative FPtr]⟩
  | none =>
    if JIT_THRESHOLD ≤ J1.callCount FuncName then
      let b1 := be.initGlobals J1.TheJIT
      match J1.FunctionASTs FuncName with
      | none =>
        ⟨ops.zero, { J1 with TheJIT := b1 },
          [Event.logThresholdMet FuncName, Event.initGlobals,
            Event.logUnknownFunction FuncName]⟩
      | some F =>
        let b2 := be.codegen F b1
        let r3 := be.addIRModule b2
        if r3.1 then
          ⟨ops.zero, { J1 with TheJIT := r3.2 },
            [Event.logThresholdMet FuncName, Event.initGlobals, Event.codegen FuncName,
              Event.addIRModule, Event.logAddModuleError]⟩
        else
          let r4 := be.lookup FuncName r3.2
          match r4.1 with
          | none =>
            ⟨ops.zero, { J1 with TheJIT := r4.2 },
              [Event.logThresholdMet FuncName, Event.initGlobals, Event.codegen FuncName,
                Event.addIRModule, Event.lookup FuncName, Event.logLookupError]⟩
          | some FPtr =>
            ⟨be.callNative FPtr r4.2,
              { J1 with TheJIT := r4.2,
                        JITtedFunctions := mapSet J1.JITtedFunctions FuncName FPtr },
              [Event.logThresholdMet FuncName, Event.initGlobals, Event.codegen FuncName,
                Event.addIRModule, Event.lookup FuncName, Event.callNative FPtr]⟩
    else
      let r := MinDynJIT.interpret ops J1 FuncName
      ⟨r.1, J1, Event.logInterpreter FuncName (J1.callCount FuncName) :: r.2⟩

/-! ## Sequences of calls -/

/-- One call of a public member function of the engine. -/
inductive Request (D : Type) where
  | addFunction (FuncAST : FunctionAST D)
  | execute (FuncName : String)
  | interpret (FuncName : String)

/-- The engine after one request.  `interpret` writes to no member. -/
def MinDynJIT.step {D σ : Type} (ops : DoubleOps D) (be : Backend D σ)
    (J : MinDynJIT D σ) : Request D → MinDynJIT D σ
  | .addFunction FuncAST => J.addFunction FuncAST
  | .execute FuncName => (J.execute ops be FuncName).state
  | .interpret _ => J

/-- The engine after a sequence of requests, first request first. -/
def MinDynJIT.run {D σ : Type} (ops : DoubleOps D) (be : Backend D σ)
    (J : MinDynJIT D σ) (rs : List (Request D)) : MinDynJIT D σ :=
  rs.foldl (MinDynJIT.step ops be) J

/-- The states an engine can be in: those a sequence of requests leads to from a freshly
constructed engine. -/
def Reachable {D σ : Type} (ops : DoubleOps D) (be : Backend D σ) (J : MinDynJIT D σ) :
    Prop :=
  ∃ (jit : σ) (rs : List (Request D)), J = (MinDynJIT.new D jit).run ops be rs

/-- The engine after `k` consecutive calls `execute(FuncName)`. -/
def MinDynJIT.afterCalls {D σ : Type} (ops : DoubleOps D) (be : Backend D σ)
    (J : MinDynJIT D σ) (FuncName : String) (k : Nat) : MinDynJIT D σ :=
  J.run ops be (List.replicate k (Request.execute FuncName))

/-- Steps 1 to 3 of a compilation of `F` started in backend state `b`: the error flag of
`addIRModule` and the backend state after it. -/
def Backend.added {D σ : Type} (be : Backend D σ) (F : FunctionAST D) (b : σ) : Bool × σ :=
  be.addIRModule (be.codegen F (be.initGlobals b))

/-- Step 4 after steps 1 to 3: the answer of `lookup(FuncName)` and the backend state after
it. -/
def Backend.found {D σ : Type} (be : Backend D σ) (F : FunctionAST D) (FuncName : String)
    (b : σ) : Option Nat × σ :=
  be.lookup FuncName (be.added F b).2

/-- Every name with a compiled entry is registered. -/
def CacheRegistered {D σ : Type} (J : MinDynJIT D σ) : Prop :=
  ∀ (g : String) (p : Nat), J.JITtedFunctions g = some p →
    (J.FunctionASTs g).isSome = true

/-- The number of `execute(g)` requests in a sequence of requests. -/
def callsOf {D : Type} (g : String) : List (Request D) → Nat
  | [] => 0
  | Request.execute f :: rest => (if f = g then 1 else 0) + callsOf g rest
  | _ :: rest => callsOf g rest

/-! ## Classes of expressions and the reference evaluation -/

/-- The tree contains a node of a kind the interpreter does not evaluate (a variable
reference, a call or a conditional), at the root or below binary nodes. -/
def ExprAST.hasUnsupported {D : Type} : ExprAST D → Bool
  | .Number _ => false
  | .Binary _ LHS RHS => LHS.hasUnsupported || RHS.hasUnsupported
  | .Variable _ => true
  | .Call _ _ => true
  | .If _ _ _ => true

/-- The tree is built only from numeric literals and binary nodes with operator `+`, `-`,
`*` or `/`. -/
def ExprAST.isArith {D : Type} : ExprAST D → Bool
  | .Number _ => true
  | .Binary Op LHS RHS =>
    (Op = '+' || Op = '-' || Op = '*' || Op = '/') && LHS.isArith && RHS.isArith
  | _ => false

/-- The reference evaluation, in the words of the spec (section 4.4): a numeric literal has
its value; a binary operation has the operator applied to the value of the left operand and
the value of the right operand, division without a zero guard.  It is defined on the
arithmetic trees. -/
def refEval {D : Type} (ops : DoubleOps D) : ExprAST D → Option D
  | .Number Val => some Val
  | .Binary Op LHS RHS =>
    match refEval ops LHS, refEval ops RHS with
    | some l, some r =>
      if Op = '+' then some (ops.add l r)
      else if Op = '-' then some (ops.sub l r)
      else if Op = '*' then some (ops.mul l r)
      else if Op = '/' then some (ops.div l r)
      else none
    | _, _ => none
  | _ => none

/-- The outcome the spec gives to an expression with an unsupported node: the
interpretation stops at that node with the unsupported-expression error and no value
computed from the rest of the tree comes back.  For the C++ interface this is the sentinel
`0` with the error line written once. -/
def AbortsUnsupported {D : Type} (ops : DoubleOps D) (E : ExprAST D) : Prop :=
  MinDynJIT.interpretExpr ops E (emptyContext D) = (ops.zero, [Event.logUnsupported])

/-- The tree is built only from numeric literals and binary nodes whose operator has a case
in the `switch`: the expressions the interpreter evaluates without error. -/
def ExprAST.isSupported {D : Type} : ExprAST D → Bool
  | .Number _ => true
  | .Binary Op LHS RHS =>
    (Op = '+' || Op = '-' || Op = '*' || Op = '/' || Op = '<' || Op = '>') &&
      LHS.isSupported && RHS.isSupported
  | _ => false

/-- The request is a call of `addFunction`. -/
def Request.isAddFunction {D : Type} : Request D → Bool
  | .addFunction _ => true
  | _ => false

/-- The request is a call of `interpret`. -/
def Request.isInterpret {D : Type} : Request D → Bool
  | .interpret _ => true
  | _ => false

/-! ## The driver -/

/-- Modelled from the spec: `Lexer.h` and `Parser.h` are not among the sources.  The parser
is the stream of what the loop of `run` (`main.cpp`, lines 34-51) obtains from it, one item
an iteration, up to `tok_eof`: a top-level semicolon, the result of `ParseDefinition()` at
`tok_def`, or the result of `ParseTopLevelExpr()`, the anonymous function wrapping the
expression; `none` stands for the null pointer of a failed parse. -/
inductive Parsed (D : Type) where
  | semicolon
  | definition (FnAST : Option (FunctionAST D))
  | topLevelExpr (ExprAST : Option (FunctionAST D))

/-- What the driver writes: the events of the engine calls it makes, its own two `stderr`
lines, and the `stdout` line `Evaluated to: %f`. -/
inductive Output (D : Type) where
  | engine (e : Event)
  | logParsedDefinition (Name : String)
  | logTopLevelInterpreter
  | evaluatedTo (result : D)
  deriving DecidableEq, Repr

/-- One iteration of the loop of `run` (`main.cpp`, lines 21-51) on the item the parser
delivers.  A definition is handed to `addFunction`.  A top-level expression is, with
`enableJIT`, handed to `addFunction` and executed by name; without it, `interpret` is called
with the name of the anonymous function, which has not been handed to `addFunction`.  A
failed parse only skips a token. -/
def runItem {D σ : Type} (ops : DoubleOps D) (be : Backend D σ) (enableJIT : Bool)
    (Jit : MinDynJIT D σ) : Parsed D → MinDynJIT D σ × List (Output D)
  | .semicolon => (Jit, [])
  | .definition none => (Jit, [])
  | .definition (some FnAST) =>
    (Jit.addFunction FnAST, [Output.logParsedDefinition FnAST.Proto.Name])
  | .topLevelExpr none => (Jit, [])
  | .topLevelExpr (some ExprAST) =>
    if enableJIT then
      let anonFuncName := ExprAST.Proto.Name
      let r := (Jit.addFunction ExprAST).execute ops be anonFuncName
      (r.state, r.trace.map Output.engine ++ [Output.evaluatedTo r.value])
    else
      let r := Jit.interpret ops ExprAST.Proto.Name
      (Jit, Output.logTopLevelInterpreter :: r.2.map Output.engine ++
        [Output.evaluatedTo r.1])

/-- The loop of `run` from engine `Jit` on: the engine at `tok_eof` and everything
written. -/
def runLoop {D σ : Type} (ops : DoubleOps D) (be : Backend D σ) (enableJIT : Bool) :
    MinDynJIT D σ → List (Parsed D) → MinDynJIT D σ × List (Output D)
  | Jit, [] => (Jit, [])
  | Jit, item :: rest =>
    let r := runItem ops be enableJIT Jit item
    let rs := runLoop ops be enableJIT r.1 rest
    (rs.1, r.2 ++ rs.2)

/-- The driver `run` (`main.cpp`, lines 10-52): a fresh engine, then the loop.  `jit` is the
`LLJIT` instance the constructor of the engine obtained. -/
def run {D σ : Type} (ops : DoubleOps D) (be : Backend D σ) (jit : σ)
    (source : List (Parsed D)) (enableJIT : Bool) : MinDynJIT D σ × List (Output D) :=
  runLoop ops be enableJIT (MinDynJIT.new D jit) source

/-- The values printed on `stdout`, in order. -/
def printed {D : Type} : List (Output D) → List D
  | [] => []
  | Output.evaluatedTo result :: rest => result :: printed rest
  | _ :: rest => printed rest

/-! ## A backend and functions for the examples -/

/-- The state of the example backend: the function generated into the current module, if
any, with the value its routine returns, and the symbols of the modules added so far.  The
address of a symbol is its position in `symbols`. -/
structure SimJIT where
  pending : Option (String × Dbl)
  symbols : List (String × Dbl)
  deriving DecidableEq, Repr

/-- The freshly created example backend. -/
def SimJIT.empty : SimJIT := ⟨none, []⟩

/-- The position of the symbol `name`, counted from `i`. -/
def SimJIT.find (name : String) : List (String × Dbl) → Nat → Option Nat
  | [], _ => none
  | (n, _) :: rest, i => if n = name then some i else SimJIT.find name rest (i + 1)

/-- An example backend.  The routine generated for a function returns what the interpreter
computes for its body.  Adding a module fails when `addFails` is set or when its symbol is
already defined; the lookup fails when `lookupFails` is set or the symbol is not defined. -/
def simBackend (addFails lookupFails : Bool) : Backend Dbl SimJIT where
  initGlobals := fun b => ⟨none, b.symbols⟩
  codegen := fun F b =>
    ⟨some (F.Proto.Name, (MinDynJIT.interpretExpr Dbl.ops F.Body (emptyContext Dbl)).1),
      b.symbols⟩
  addIRModule := fun b =>
    match b.pending with
    | none => (addFails, b)
    | some (n, v) =>
      if addFails || (SimJIT.find n b.symbols 0).isSome then (true, ⟨none, b.symbols⟩)
      else (false, ⟨none, b.symbols ++ [(n, v)]⟩)
  lookup := fun name b => (if lookupFails then none else SimJIT.find name b.symbols 0, b)
  callNative := fun FPtr b =>
    match b.symbols.get? FPtr with
    | some (_, v) => v
    | none => Dbl.nan

/-- The literal `n` as an expression. -/
def lit (n : Int) : ExprAST Dbl := ExprAST.Number (Dbl.ofInt n)

/-- The function `f() = 2 + 3` of Scenario A. -/
def fnF : FunctionAST Dbl := ⟨⟨"f", []⟩, ExprAST.Binary '+' (lit 2) (lit 3)⟩

/-- A second definition of `f`, with body `7 * 6`. -/
def fnF2 : FunctionAST Dbl := ⟨⟨"f", []⟩, ExprAST.Binary '*' (lit 7) (lit 6)⟩

/-- The function `g` of Scenario B, whose body is a conditional. -/
def fnG : FunctionAST Dbl := ⟨⟨"g", []⟩, ExprAST.If (lit 1) (lit 2) (lit 3)⟩

/-- A function whose body is `1 + x`: a supported operation with an unsupported operand. -/
def fnH : FunctionAST Dbl := ⟨⟨"h", []⟩, ExprAST.Binary '+' (lit 1) (ExprAST.Variable "x")⟩

/-- A function whose body is `1 / 0`. -/
def fnDiv : FunctionAST Dbl := ⟨⟨"d", []⟩, ExprAST.Binary '/' (lit 1) (lit 0)⟩

/-- A fresh engine on the example backend in which `f() = 2 + 3` is registered. -/
def engineF : MinDynJIT Dbl SimJIT := (MinDynJIT.new Dbl SimJIT.empty).addFunction fnF

/-- A fresh engine in which `g` and `h` are registered. -/
def engineGH : MinDynJIT Dbl SimJIT :=
  ((MinDynJIT.new Dbl SimJIT.empty).addFunction fnG).addFunction fnH

/-- The example backend without failures. -/
def okBackend : Backend Dbl SimJIT := simBackend false false

/-- The example backend on which adding a module always fails. -/
def addFailBackend : Backend Dbl SimJIT := simBackend true false

/-- The example backend on which the symbol lookup always fails. -/
def lookupFailBackend : Backend Dbl SimJIT := simBackend false true

/-- The anonymous function the parser wraps around the top-level expression `2 + 3`. -/
def fnAnon : FunctionAST Dbl := ⟨⟨"__anon_expr", []⟩, ExprAST.Binary '+' (lit 2) (lit 3)⟩

/-- The comparison `2 < 3`. -/
def exprLt : ExprAST Dbl := ExprAST.Binary '<' (lit 2) (lit 3)

/-- The comparison `2 > 3`. -/
def exprGt : ExprAST Dbl := ExprAST.Binary '>' (lit 2) (lit 3)

/-- A binary node with the operator `%`, for which the `switch` has no case. -/
def exprMod : ExprAST Dbl := ExprAST.Binary '%' (lit 7) (lit 2)

/-- The function `z() = 0`, whose value is the number `0.0`. -/
def fnZ : FunctionAST Dbl := ⟨⟨"z", []⟩, lit 0⟩

/-- A fresh engine in which `z() = 0` is registered. -/
def engineZ : MinDynJIT Dbl SimJIT := (MinDynJIT.new Dbl SimJIT.empty).addFunction fnZ

/-! ## Basic facts -/

theorem mapSet_same {α : Type} (m : String → Option α) (k : String) (v : α) :
    mapSet m k v k = some v := by
  simp [mapSet]

theorem mapSet_other {α : Type} (m : String → Option α) (k k1 : String) (v : α)
    (h : k1 ≠ k) : mapSet m k v k1 = m k1 := by
  simp [mapSet, h]

/-- Below `INT_MAX` the increment adds one. -/
theorem intIncr_of_ne (c : Int) (h : c ≠ INT_MAX) : intIncr c = c + 1 := by
  simp [intIncr, h]

/-- At `INT_MAX` the increment wraps around. -/
theorem intIncr_max : intIncr INT_MAX = INT_MIN := by
  simp [intIncr]

/-- On the values of `int` the increment is the addition modulo `2^32`. -/
theorem intIncr_eq_mod (c : Int) (hlo : INT_MIN ≤ c) (hhi : c ≤ INT_MAX) :
    intIncr c = (c + 1 + 2147483648) % 4294967296 - 2147483648 := by
  unfold INT_MIN at hlo
  unfold INT_MAX at hhi
  unfold intIncr INT_MAX INT_MIN
  split <;> omega

theorem JIT_THRESHOLD_lt_INT_MAX : JIT_THRESHOLD < INT_MAX := by
  decide

theorem callCount_countCall {D σ : Type} (J : MinDynJIT D σ) (f : String) :
    (J.countCall f).callCount f = intIncr (J.callCount f) := by
  simp [MinDynJIT.countCall, MinDynJIT.callCount, mapSet]

theorem callCount_countCall_of_ne {D σ : Type} (J : MinDynJIT D σ) (f : String)
    (h : J.callCount f ≠ INT_MAX) : (J.countCall f).callCount f = J.callCount f + 1 := by
  rw [callCount_countCall, intIncr_of_ne _ h]

theorem callCount_countCall_of_lt {D σ : Type} (J : MinDynJIT D σ) (f : String)
    (h : J.callCount f + 1 < JIT_THRESHOLD) :
    (J.countCall f).callCount f = J.callCount f + 1 := by
  have := JIT_THRESHOLD_lt_INT_MAX
  exact callCount_countCall_of_ne J f (by omega)

theorem callCount_countCall_other {D σ : Type} (J : MinDynJIT D σ) (f g : String)
    (h : g ≠ f) : (J.countCall f).callCount g = J.callCount g := by
  simp [MinDynJIT.countCall, MinDynJIT.callCount, mapSet, h]

/-- Every event of `interpretExpr` is the unsupported-expression line. -/
theorem interpretExpr_trace {D : Type} (ops : DoubleOps D) :
    ∀ (E : ExprAST D) (context : Context D),
      ∀ e ∈ (MinDynJIT.interpretExpr ops E context).2, e = Event.logUnsupported
  | .Number _, _ => by simp [MinDynJIT.interpretExpr]
  | .Variable _, _ => by simp [MinDynJIT.interpretExpr]
  | .Call _ _, _ => by simp [MinDynJIT.interpretExpr]
  | .If _ _ _, _ => by simp [MinDynJIT.interpretExpr]
  | .Binary Op LHS RHS, context => by
    have hl := interpretExpr_trace ops LHS context
    have hr := interpretExpr_trace ops RHS context
    intro e he
    simp only [MinDynJIT.interpretExpr] at he
    split at he
    · rcases List.mem_append.mp he with he | he
      · exact hl e he
      · exact hr e he
    · rcases List.mem_append.mp he with he | he
      · rcases List.mem_append.mp he with he | he
        · exact hl e he
        · exact hr e he
      · exact List.mem_singleton.mp he

/-- The interpreter asks nothing of the backend and calls no native routine. -/
theorem interpret_trace {D σ : Type} (ops : DoubleOps D) (J : MinDynJIT D σ) (f : String) :
    ∀ e ∈ (J.interpret ops f).2, e.isCodeGen = false ∧ (∀ p, e ≠ Event.callNative p) := by
  intro e he
  unfold MinDynJIT.interpret at he
  split at he
  · simp at he; subst he; simp [Event.isCodeGen]
  · have := interpretExpr_trace ops _ _ e he
    subst this; simp [Event.isCodeGen]

/-- A cache hit: the routine stored for `f` is called, and only the counter changes. -/
theorem execute_hit {D σ : Type} (ops : DoubleOps D) (be : Backend D σ)
    (J : MinDynJIT D σ) (f : String) (p : Nat) (h : J.JITtedFunctions f = some p) :
    J.execute ops be f =
      ⟨be.callNative p J.TheJIT, J.countCall f, [Event.logExecJIT f, Event.callNative p]⟩ := by
  have h1 : (J.countCall f).JITtedFunctions f = some p := h
  simp only [MinDynJIT.execute, h1]
  rfl

/-- Without a cache entry and with the incremented counter below the threshold, `execute`
is `interpret`. -/
theorem execute_interp_post {D σ : Type} (ops : DoubleOps D) (be : Backend D σ)
    (J : MinDynJIT D σ) (f : String) (h : J.JITtedFunctions f = none)
    (hc : (J.countCall f).callCount f < JIT_THRESHOLD) :
    J.execute ops be f =
      ⟨(J.interpret ops f).1, J.countCall f,
        Event.logInterpreter f ((J.countCall f).callCount f) :: (J.interpret ops f).2⟩ := by
  have h1 : (J.countCall f).JITtedFunctions f = none := h
  have h2 : ¬ JIT_THRESHOLD ≤ (J.countCall f).callCount f := by omega
  simp only [MinDynJIT.execute, h1, h2, if_false]
  rfl

/-- Below the threshold and without a cache entry, `execute` is `interpret`. -/
theorem execute_interp {D σ : Type} (ops : DoubleOps D) (be : Backend D σ)
    (J : MinDynJIT D σ) (f : String) (h : J.JITtedFunctions f = none)
    (hc : J.callCount f + 1 < JIT_THRESHOLD) :
    J.execute ops be f =
      ⟨(J.interpret ops f).1, J.countCall f,
        Event.logInterpreter f (J.callCount f + 1) :: (J.interpret ops f).2⟩ := by
  have he := callCount_countCall_of_lt J f hc
  rw [execute_interp_post ops be J f h (by rw [he]; exact hc), he]

/-- The registry is not written by `execute`. -/
theorem execute_FunctionASTs {D σ : Type} (ops : DoubleOps D) (be : Backend D σ)
    (J : MinDynJIT D σ) (f : String) :
    (J.execute ops be f).state.FunctionASTs = J.FunctionASTs := by
  unfold MinDynJIT.execute
  simp only
  split
  · rfl
  · split
    · split
      · rfl
      · split
        · rfl
        · split <;> rfl
    · rfl

/-- On every path the counters after `execute` are those after the increment. -/
theorem execute_FunctionCallCounts {D σ : Type} (ops : DoubleOps D) (be : Backend D σ)
    (J : MinDynJIT D σ) (f : String) :
    (J.execute ops be f).state.FunctionCallCounts =
      mapSet J.FunctionCallCounts f (intIncr (J.callCount f)) := by
  unfold MinDynJIT.execute
  simp only
  split
  · rfl
  · split
    · split
      · rfl
      · split
        · rfl
        · split <;> rfl
    · rfl

/-- The cache entry of a name other than the executed one is not written. -/
theorem execute_cache_other {D σ : Type} (ops : DoubleOps D) (be : Backend D σ)
    (J : MinDynJIT D σ) (f g : String) (h : g ≠ f) :
    (J.execute ops be f).state.JITtedFunctions g = J.JITtedFunctions g := by
  unfold MinDynJIT.execute
  simp only
  split
  · rfl
  · split
    · split
      · rfl
      · split
        · rfl
        · split
          · rfl
          · exact mapSet_other _ _ _ _ h
    · rfl

/-- An entry present before `execute` is the entry present afterwards. -/
theorem execute_keeps_entry {D σ : Type} (ops : DoubleOps D) (be : Backend D σ)
    (J : MinDynJIT D σ) (f g : String) (p : Nat) (h : J.JITtedFunctions g = some p) :
    (J.execute ops be f).state.JITtedFunctions g = some p := by
  by_cases hg : g = f
  · subst hg
    rw [execute_hit ops be J g p h]
    exact h
  · rw [execute_cache_other ops be J f g hg]
    exact h

/-- An entry that `execute` creates is for the executed name, which is registered and whose
counter has reached the threshold. -/
theorem execute_new_entry {D σ : Type} (ops : DoubleOps D) (be : Backend D σ)
    (J : MinDynJIT D σ) (f g : String) (p : Nat) (h : J.JITtedFunctions g = none)
    (hp : (J.execute ops be f).state.JITtedFunctions g = some p) :
    g = f ∧ JIT_THRESHOLD ≤ (J.countCall f).callCount f ∧
      (J.FunctionASTs f).isSome = true := by
  by_cases hg : g = f
  · subst hg
    refine ⟨rfl, ?_, ?_⟩
    · by_contra hlt
      rw [execute_interp_post ops be J g h (by omega)] at hp
      have h1 : (J.countCall g).JITtedFunctions g = none := h
      rw [h1] at hp
      cases hp
    · cases hF : J.FunctionASTs g with
      | some F => rfl
      | none =>
        exfalso
        have h1 : (J.countCall g).JITtedFunctions g = none := h
        have h2 : (J.countCall g).FunctionASTs g = none := hF
        unfold MinDynJIT.execute at hp
        simp only [h1, h2] at hp
        split at hp <;> simp [MinDynJIT.interpret, h1, h] at hp
  · rw [execute_cache_other ops be J f g hg, h] at hp
    cases hp

/-- The call that compiles: all four backend steps succeed, the address is cached and the
routine is called. -/
theorem execute_compiled {D σ : Type} (ops : DoubleOps D) (be : Backend D σ)
    (J : MinDynJIT D σ) (f : String) (F : FunctionAST D) (p : Nat)
    (h : J.JITtedFunctions f = none) (hc : JIT_THRESHOLD ≤ (J.countCall f).callCount f)
    (hF : J.FunctionASTs f = some F) (hadd : (be.added F J.TheJIT).1 = false)
    (hfound : (be.found F f J.TheJIT).1 = some p) :
    J.execute ops be f =
      ⟨be.callNative p (be.found F f J.TheJIT).2,
        { J.countCall f with
            TheJIT := (be.found F f J.TheJIT).2
            JITtedFunctions := mapSet J.JITtedFunctions f p },
        [Event.logThresholdMet f, Event.initGlobals, Event.codegen f, Event.addIRModule,
          Event.lookup f, Event.callNative p]⟩ := by
  have h1 : (J.countCall f).JITtedFunctions f = none := h
  have h2 : (J.countCall f).FunctionASTs f = some F := hF
  have h3 : (be.addIRModule (be.codegen F (be.initGlobals (J.countCall f).TheJIT))).1
      = false := hadd
  have h4 : (be.lookup f
      (be.addIRModule (be.codegen F (be.initGlobals (J.countCall f).TheJIT))).2).1
      = some p := hfound
  simp only [MinDynJIT.execute, h1, hc, if_true, h2, h3, h4]
  rfl

/-- The call on which `addIRModule` fails. -/
theorem execute_add_failed {D σ : Type} (ops : DoubleOps D) (be : Backend D σ)
    (J : MinDynJIT D σ) (f : String) (F : FunctionAST D)
    (h : J.JITtedFunctions f = none) (hc : JIT_THRESHOLD ≤ (J.countCall f).callCount f)
    (hF : J.FunctionASTs f = some F) (hadd : (be.added F J.TheJIT).1 = true) :
    J.execute ops be f =
      ⟨ops.zero, { J.countCall f with TheJIT := (be.added F J.TheJIT).2 },
        [Event.logThresholdMet f, Event.initGlobals, Event.codegen f, Event.addIRModule,
          Event.logAddModuleError]⟩ := by
  have h1 : (J.countCall f).JITtedFunctions f = none := h
  have h2 : (J.countCall f).FunctionASTs f = some F := hF
  have h3 : (be.addIRModule (be.codegen F (be.initGlobals (J.countCall f).TheJIT))).1
      = true := hadd
  simp only [MinDynJIT.execute, h1, hc, if_true, h2, h3]
  rfl

/-- The call on which the module is added and the symbol lookup fails. -/
theorem execute_lookup_failed {D σ : Type} (ops : DoubleOps D) (be : Backend D σ)
    (J : MinDynJIT D σ) (f : String) (F : FunctionAST D)
    (h : J.JITtedFunctions f = none) (hc : JIT_THRESHOLD ≤ (J.countCall f).callCount f)
    (hF : J.FunctionASTs f = some F) (hadd : (be.added F J.TheJIT).1 = false)
    (hfound : (be.found F f J.TheJIT).1 = none) :
    J.execute ops be f =
      ⟨ops.zero, { J.countCall f with TheJIT := (be.found F f J.TheJIT).2 },
        [Event.logThresholdMet f, Event.initGlobals, Event.codegen f, Event.addIRModule,
          Event.lookup f, Event.logLookupError]⟩ := by
  have h1 : (J.countCall f).JITtedFunctions f = none := h
  have h2 : (J.countCall f).FunctionASTs f = some F := hF
  have h3 : (be.addIRModule (be.codegen F (be.initGlobals (J.countCall f).TheJIT))).1
      = false := hadd
  have h4 : (be.lookup f
      (be.addIRModule (be.codegen F (be.initGlobals (J.countCall f).TheJIT))).2).1
      = none := hfound
  simp only [MinDynJIT.execute, h1, hc, if_true, h2, h3, h4]
  rfl

/-- The call for an unregistered name whose counter has reached the threshold. -/
theorem execute_unknown_hot {D σ : Type} (ops : DoubleOps D) (be : Backend D σ)
    (J : MinDynJIT D σ) (f : String)
    (h : J.JITtedFunctions f = none) (hc : JIT_THRESHOLD ≤ (J.countCall f).callCount f)
    (hF : J.FunctionASTs f = none) :
    J.execute ops be f =
      ⟨ops.zero, { J.countCall f with TheJIT := be.initGlobals J.TheJIT },
        [Event.logThresholdMet f, Event.initGlobals, Event.logUnknownFunction f]⟩ := by
  have h1 : (J.countCall f).JITtedFunctions f = none := h
  have h2 : (J.countCall f).FunctionASTs f = none := hF
  simp only [MinDynJIT.execute, h1, hc, if_true, h2]
  rfl

/-! ## Sequences of requests -/

theorem run_nil {D σ : Type} (ops : DoubleOps D) (be : Backend D σ) (J : MinDynJIT D σ) :
    J.run ops be [] = J := rfl

theorem run_cons {D σ : Type} (ops : DoubleOps D) (be : Backend D σ) (J : MinDynJIT D σ)
    (r : Request D) (rs : List (Request D)) :
    J.run ops be (r :: rs) = (J.step ops be r).run ops be rs := rfl

theorem run_append {D σ : Type} (ops : DoubleOps D) (be : Backend D σ) (J : MinDynJIT D σ)
    (rs ts : List (Request D)) :
    J.run ops be (rs ++ ts) = (J.run ops be rs).run ops be ts := by
  simp [MinDynJIT.run, List.foldl_append]

theorem afterCalls_succ {D σ : Type} (ops : DoubleOps D) (be : Backend D σ)
    (J : MinDynJIT D σ) (f : String) (k : Nat) :
    J.afterCalls ops be f (k + 1) = ((J.afterCalls ops be f k).execute ops be f).state := by
  unfold MinDynJIT.afterCalls
  rw [List.replicate_succ', run_append]
  rfl

/-- One request keeps every compiled entry. -/
theorem step_keeps_entry {D σ : Type} (ops : DoubleOps D) (be : Backend D σ)
    (J : MinDynJIT D σ) (r : Request D) (g : String) (p : Nat)
    (h : J.JITtedFunctions g = some p) : (J.step ops be r).JITtedFunctions g = some p := by
  cases r with
  | addFunction F => exact h
  | execute f => exact execute_keeps_entry ops be J f g p h
  | interpret f => exact h

/-- A sequence of requests keeps every compiled entry. -/
theorem run_keeps_entry {D σ : Type} (ops : DoubleOps D) (be : Backend D σ)
    (rs : List (Request D)) : ∀ (J : MinDynJIT D σ) (g : String) (p : Nat),
    J.JITtedFunctions g = some p → (J.run ops be rs).JITtedFunctions g = some p := by
  induction rs with
  | nil => intro J g p h; exact h
  | cons r rs ih =>
    intro J g p h
    rw [run_cons]
    exact ih _ g p (step_keeps_entry ops be J r g p h)

/-- One request keeps every cached name registered. -/
theorem step_CacheRegistered {D σ : Type} (ops : DoubleOps D) (be : Backend D σ)
    (J : MinDynJIT D σ) (r : Request D) (h : CacheRegistered J) :
    CacheRegistered (J.step ops be r) := by
  cases r with
  | interpret f => exact h
  | addFunction F =>
    intro g p hg
    have hJ := h g p hg
    show (mapSet J.FunctionASTs F.Proto.Name F g).isSome = true
    unfold mapSet
    split
    · rfl
    · exact hJ
  | execute f =>
    intro g p hg
    show ((J.execute ops be f).state.FunctionASTs g).isSome = true
    rw [execute_FunctionASTs]
    cases hb : J.JITtedFunctions g with
    | some q => exact h g q hb
    | none =>
      obtain ⟨hgf, -, hreg⟩ := execute_new_entry ops be J f g p hb hg
      subst hgf
      exact hreg

/-- In every reachable engine the cached names are registered. -/
theorem reachable_CacheRegistered {D σ : Type} (ops : DoubleOps D) (be : Backend D σ)
    (J : MinDynJIT D σ) (h : Reachable ops be J) : CacheRegistered J := by
  obtain ⟨jit, rs, rfl⟩ := h
  have key : ∀ (rs : List (Request D)) (K : MinDynJIT D σ), CacheRegistered K →
      CacheRegistered (K.run ops be rs) := by
    intro rs
    induction rs with
    | nil => intro K hK; exact hK
    | cons r rs ih =>
      intro K hK
      rw [run_cons]
      exact ih _ (step_CacheRegistered ops be K r hK)
  apply key
  intro g p hg
  cases hg

/-- The counter of `g` after `execute(f)`. -/
theorem execute_callCount {D σ : Type} (ops : DoubleOps D) (be : Backend D σ)
    (J : MinDynJIT D σ) (f g : String) :
    (J.execute ops be f).state.callCount g = (J.countCall f).callCount g := by
  unfold MinDynJIT.callCount
  rw [execute_FunctionCallCounts]
  rfl

/-- While the counter of `g` does not overflow, it counts the `execute(g)` requests, and a
compiled `g` keeps a counter of at least the threshold. -/
theorem run_entry_hot {D σ : Type} (ops : DoubleOps D) (be : Backend D σ)
    (g : String) (rs : List (Request D)) : ∀ (J : MinDynJIT D σ),
    (∀ p, J.JITtedFunctions g = some p → JIT_THRESHOLD ≤ J.callCount g) →
    J.callCount g + (callsOf g rs : Int) ≤ INT_MAX →
      (∀ p, (J.run ops be rs).JITtedFunctions g = some p →
        JIT_THRESHOLD ≤ (J.run ops be rs).callCount g) ∧
      (J.run ops be rs).callCount g = J.callCount g + (callsOf g rs : Int) := by
  induction rs with
  | nil =>
    intro J hinv _
    exact ⟨hinv, by simp [run_nil, callsOf]⟩
  | cons r rs ih =>
    intro J hinv hb
    rw [run_cons]
    cases r with
    | addFunction F => exact ih (J.addFunction F) hinv hb
    | interpret f => exact ih J hinv hb
    | execute f =>
      have hcalls : (callsOf g (Request.execute f :: rs) : Int) =
          (if f = g then 1 else 0) + (callsOf g rs : Int) := by
        simp only [callsOf]
        push_cast
        split <;> rfl
      rw [hcalls] at hb ⊢
      have hnn : (0 : Int) ≤ (callsOf g rs : Int) := Int.ofNat_nonneg _
      by_cases hfg : f = g
      · subst hfg
        simp only [if_true] at hb ⊢
        have hne : J.callCount f ≠ INT_MAX := by omega
        have hcnt : (J.execute ops be f).state.callCount f = J.callCount f + 1 := by
          rw [execute_callCount, callCount_countCall_of_ne J f hne]
        have hinv2 : ∀ p, (J.execute ops be f).state.JITtedFunctions f = some p →
            JIT_THRESHOLD ≤ (J.execute ops be f).state.callCount f := by
          intro p hp
          rw [hcnt]
          cases hc : J.JITtedFunctions f with
          | some q =>
            have := hinv q hc
            omega
          | none =>
            obtain ⟨-, hhot, -⟩ := execute_new_entry ops be J f f p hc hp
            rw [callCount_countCall_of_ne J f hne] at hhot
            exact hhot
        obtain ⟨h1, h2⟩ := ih (J.execute ops be f).state hinv2 (by rw [hcnt]; omega)
        refine ⟨h1, ?_⟩
        show ((J.execute ops be f).state.run ops be rs).callCount f = _
        rw [h2, hcnt]
        omega
      · have hgf : g ≠ f := fun h => hfg h.symm
        simp only [hfg, if_false] at hb ⊢
        have hcnt : (J.execute ops be f).state.callCount g = J.callCount g := by
          rw [execute_callCount, callCount_countCall_other J f g hgf]
        have hinv2 : ∀ p, (J.execute ops be f).state.JITtedFunctions g = some p →
            JIT_THRESHOLD ≤ (J.execute ops be f).state.callCount g := by
          intro p hp
          rw [hcnt]
          rw [execute_cache_other ops be J f g hgf] at hp
          exact hinv p hp
        obtain ⟨h1, h2⟩ := ih (J.execute ops be f).state hinv2 (by rw [hcnt]; omega)
        refine ⟨h1, ?_⟩
        show ((J.execute ops be f).state.run ops be rs).callCount g = _
        rw [h2, hcnt]
        omega

/-- A freshly constructed engine is reachable. -/
theorem reachable_new {D σ : Type} (ops : DoubleOps D) (be : Backend D σ) (jit : σ) :
    Reachable ops be (MinDynJIT.new D jit) :=
  ⟨jit, [], rfl⟩

/-- Requests lead from reachable engines to reachable engines. -/
theorem reachable_run {D σ : Type} (ops : DoubleOps D) (be : Backend D σ)
    (J : MinDynJIT D σ) (h : Reachable ops be J) (rs : List (Request D)) :
    Reachable ops be (J.run ops be rs) := by
  obtain ⟨jit, ts, rfl⟩ := h
  exact ⟨jit, ts ++ rs, (run_append ops be _ ts rs).symm⟩

/-- While the counter stays below the threshold, consecutive calls of an uncompiled
function change nothing but its counter. -/
theorem afterCalls_below {D σ : Type} (ops : DoubleOps D) (be : Backend D σ)
    (J : MinDynJIT D σ) (f : String) (hcount : J.callCount f = 0)
    (hcache : J.JITtedFunctions f = none) (k : Nat) (hk : (k : Int) < JIT_THRESHOLD) :
    (J.afterCalls ops be f k).callCount f = k ∧
    (J.afterCalls ops be f k).FunctionASTs = J.FunctionASTs ∧
    (J.afterCalls ops be f k).JITtedFunctions = J.JITtedFunctions ∧
    (J.afterCalls ops be f k).TheJIT = J.TheJIT := by
  induction k with
  | zero => exact ⟨by simpa using hcount, rfl, rfl, rfl⟩
  | succ k ih =>
    have hk1 : (k : Int) < JIT_THRESHOLD := by push_cast at hk; omega
    obtain ⟨h1, h2, h3, h4⟩ := ih hk1
    have hc : (J.afterCalls ops be f k).JITtedFunctions f = none := by rw [h3]; exact hcache
    have hlt : (J.afterCalls ops be f k).callCount f + 1 < JIT_THRESHOLD := by
      rw [h1]; push_cast at hk; omega
    rw [afterCalls_succ, execute_interp ops be _ f hc hlt]
    refine ⟨?_, h2, h3, h4⟩
    show ((J.afterCalls ops be f k).countCall f).callCount f = ((k + 1 : Nat) : Int)
    rw [callCount_countCall_of_lt _ _ hlt, h1]
    push_cast
    rfl

/-- Consecutive calls of `f`: while the counter does not pass `INT_MAX` it grows by one a
call. -/
theorem afterCalls_callCount {D σ : Type} (ops : DoubleOps D) (be : Backend D σ)
    (J : MinDynJIT D σ) (f : String) (n : Nat) (h : J.callCount f + (n : Int) ≤ INT_MAX) :
    (J.afterCalls ops be f n).callCount f = J.callCount f + (n : Int) := by
  induction n with
  | zero => simp [MinDynJIT.afterCalls, run_nil]
  | succ n ih =>
    push_cast at h
    have h1 := ih (by omega)
    rw [afterCalls_succ, execute_callCount,
      callCount_countCall_of_ne _ _ (by rw [h1]; omega), h1]
    push_cast
    ring

/-- Consecutive calls of `f` keep every compiled entry. -/
theorem afterCalls_keeps_entry {D σ : Type} (ops : DoubleOps D) (be : Backend D σ)
    (J : MinDynJIT D σ) (f g : String) (p : Nat) (n : Nat)
    (h : J.JITtedFunctions g = some p) :
    (J.afterCalls ops be f n).JITtedFunctions g = some p := by
  unfold MinDynJIT.afterCalls
  exact run_keeps_entry ops be _ J g p h

/-- Calls made one after the other add up. -/
theorem afterCalls_add {D σ : Type} (ops : DoubleOps D) (be : Backend D σ)
    (J : MinDynJIT D σ) (f : String) (m n k : Nat) (h : k = m + n) :
    J.afterCalls ops be f k = (J.afterCalls ops be f m).afterCalls ops be f n := by
  subst h
  unfold MinDynJIT.afterCalls
  rw [List.replicate_add, run_append]

/-- From an engine in which `f` is registered with count 0 and no entry, the call number
`k + 1` below the threshold is an interpreter call that leaves cache and backend alone. -/
theorem calls_below_threshold {D σ : Type} (ops : DoubleOps D) (be : Backend D σ)
    (J : MinDynJIT D σ) (f : String) (F : FunctionAST D)
    (hreg : J.FunctionASTs f = some F) (hcount : J.callCount f = 0)
    (hcache : J.JITtedFunctions f = none) (k : Nat) (hk : (k : Int) + 1 < JIT_THRESHOLD) :
    ((J.afterCalls ops be f k).execute ops be f).value =
      ((J.afterCalls ops be f k).interpret ops f).1 ∧
    ((J.afterCalls ops be f k).execute ops be f).trace =
      Event.logInterpreter f (k + 1) :: ((J.afterCalls ops be f k).interpret ops f).2 ∧
    (J.afterCalls ops be f k).interpret ops f =
      MinDynJIT.interpretExpr ops F.Body (emptyContext D) ∧
    (∀ e ∈ ((J.afterCalls ops be f k).execute ops be f).trace,
      e.isCodeGen = false ∧ ∀ p, e ≠ Event.callNative p) ∧
    ((J.afterCalls ops be f k).execute ops be f).state.JITtedFunctions f = none ∧
    ((J.afterCalls ops be f k).execute ops be f).state.TheJIT = J.TheJIT := by
  have hk1 : (k : Int) < JIT_THRESHOLD := by omega
  obtain ⟨h1, h2, h3, h4⟩ := afterCalls_below ops be J f hcount hcache k hk1
  have hc : (J.afterCalls ops be f k).JITtedFunctions f = none := by rw [h3]; exact hcache
  have hlt : (J.afterCalls ops be f k).callCount f + 1 < JIT_THRESHOLD := by rw [h1]; exact hk
  have hi : (J.afterCalls ops be f k).interpret ops f =
      MinDynJIT.interpretExpr ops F.Body (emptyContext D) := by
    unfold MinDynJIT.interpret
    rw [h2, hreg]
  rw [execute_interp ops be _ f hc hlt]
  refine ⟨rfl, by rw [h1], hi, ?_, hc, h4⟩
  intro e he
  rcases List.mem_cons.mp he with he | he
  · subst he
    exact ⟨rfl, fun p hp => by cases hp⟩
  · exact interpret_trace ops _ f e he

/-- A tree with an unsupported node makes `interpretExpr` write the unsupported-expression
line. -/
theorem interpretExpr_reports_unsupported {D : Type} (ops : DoubleOps D) :
    ∀ (E : ExprAST D) (context : Context D), E.hasUnsupported = true →
      Event.logUnsupported ∈ (MinDynJIT.interpretExpr ops E context).2
  | .Number _, _, h => by simp [ExprAST.hasUnsupported] at h
  | .Variable _, _, _ => by simp [MinDynJIT.interpretExpr]
  | .Call _ _, _, _ => by simp [MinDynJIT.interpretExpr]
  | .If _ _ _, _, _ => by simp [MinDynJIT.interpretExpr]
  | .Binary Op LHS RHS, context, h => by
    have hsub : Event.logUnsupported ∈ (MinDynJIT.interpretExpr ops LHS context).2 ++
        (MinDynJIT.interpretExpr ops RHS context).2 := by
      simp only [ExprAST.hasUnsupported, Bool.or_eq_true] at h
      rcases h with h | h
      · exact List.mem_append_left _ (interpretExpr_reports_unsupported ops LHS context h)
      · exact List.mem_append_right _ (interpretExpr_reports_unsupported ops RHS context h)
    simp only [MinDynJIT.interpretExpr]
    split
    · exact hsub
    · exact List.mem_append_left _ hsub

/-- On an arithmetic tree `interpretExpr` returns the reference value and writes nothing. -/
theorem interpretExpr_arith {D : Type} (ops : DoubleOps D) :
    ∀ (E : ExprAST D) (context : Context D), E.isArith = true →
      ∃ v, refEval ops E = some v ∧ MinDynJIT.interpretExpr ops E context = (v, [])
  | .Number Val, _, _ => ⟨Val, rfl, rfl⟩
  | .Variable _, _, h => by simp [ExprAST.isArith] at h
  | .Call _ _, _, h => by simp [ExprAST.isArith] at h
  | .If _ _ _, _, h => by simp [ExprAST.isArith] at h
  | .Binary Op LHS RHS, context, h => by
    simp only [ExprAST.isArith, Bool.and_eq_true, Bool.or_eq_true, decide_eq_true_eq] at h
    obtain ⟨⟨hop, hl⟩, hr⟩ := h
    obtain ⟨vl, hl1, hl2⟩ := interpretExpr_arith ops LHS context hl
    obtain ⟨vr, hr1, hr2⟩ := interpretExpr_arith ops RHS context hr
    rcases hop with ((hop | hop) | hop) | hop <;> subst hop
    · exact ⟨ops.add vl vr, by simp [refEval, hl1, hr1],
        by simp [MinDynJIT.interpretExpr, switchOp, hl2, hr2]⟩
    · exact ⟨ops.sub vl vr, by simp [refEval, hl1, hr1],
        by simp [MinDynJIT.interpretExpr, switchOp, hl2, hr2]⟩
    · exact ⟨ops.mul vl vr, by simp [refEval, hl1, hr1],
        by simp [MinDynJIT.interpretExpr, switchOp, hl2, hr2]⟩
    · exact ⟨ops.div vl vr, by simp [refEval, hl1, hr1],
        by simp [MinDynJIT.interpretExpr, switchOp, hl2, hr2]⟩

/-! ## The claims -/

/-- C1: with threshold 5, from any engine in which `f` is registered, has call count 0 and has
no compiled entry, each of the first `threshold - 1` consecutive calls `execute(f)` (the
call number `k + 1` with `k + 1 < threshold`) takes the interpreter path: it announces the
interpreter with the call number, returns the value and the diagnostics of `interpret(f)`,
which evaluates the registered body, asks nothing of the backend, calls no native routine,
and leaves the cache without an entry for `f` and the backend untouched. -/
theorem C1_first_calls_use_interpreter {D σ : Type} (ops : DoubleOps D) (be : Backend D σ)
    (J : MinDynJIT D σ) (f : String) (F : FunctionAST D)
    (hreg : J.FunctionASTs f = some F) (hcount : J.callCount f = 0)
    (hcache : J.JITtedFunctions f = none) (k : Nat) (hk : (k : Int) + 1 < JIT_THRESHOLD) :
    JIT_THRESHOLD = 5 ∧
    ((J.afterCalls ops be f k).execute ops be f).value =
      ((J.afterCalls ops be f k).interpret ops f).1 ∧
    ((J.afterCalls ops be f k).execute ops be f).trace =
      Event.logInterpreter f (k + 1) :: ((J.afterCalls ops be f k).interpret ops f).2 ∧
    (J.afterCalls ops be f k).interpret ops f =
      MinDynJIT.interpretExpr ops F.Body (emptyContext D) ∧
    (∀ e ∈ ((J.afterCalls ops be f k).execute ops be f).trace,
      e.isCodeGen = false ∧ ∀ p, e ≠ Event.callNative p) ∧
    ((J.afterCalls ops be f k).execute ops be f).state.JITtedFunctions f = none ∧
    ((J.afterCalls ops be f k).execute ops be f).state.TheJIT = J.TheJIT := by
  exact ⟨rfl, calls_below_threshold ops be J f F hreg hcount hcache k hk⟩

/-- Scenario A, the fourth call: `f() = 2 + 3` gives `5.0` through the interpreter. -/
theorem C1_witness :
    ((engineF.afterCalls Dbl.ops okBackend "f" 3).execute Dbl.ops okBackend "f").value
      = Dbl.ofInt 5 ∧
    ((engineF.afterCalls Dbl.ops okBackend "f" 3).execute Dbl.ops okBackend "f").trace
      = [Event.logInterpreter "f" 4] := by
  obtain ⟨-, hv, ht, hi, -⟩ :=
    C1_first_calls_use_interpreter Dbl.ops okBackend engineF "f" fnF rfl rfl rfl 3 (by decide)
  rw [hv, ht, hi]
  decide

/-- C2: for a registered `f` without compiled entry whose count after the increment is at
least the threshold (5), a succeeding backend makes `execute(f)` store the address it
produced in the cache under `f` and return the result of calling that routine once; the
call runs the four backend steps and writes no interpreter line.  In particular, from an
engine in which `f` is registered with count 0 and no entry, the calls 1 to 4 ask nothing
of the backend and leave the cache empty, and the fifth call compiles. -/
theorem C2_threshold_call_compiles {D σ : Type} (ops : DoubleOps D) (be : Backend D σ) :
    (∀ (J : MinDynJIT D σ) (f : String) (F : FunctionAST D) (p : Nat),
      J.FunctionASTs f = some F → J.JITtedFunctions f = none →
      JIT_THRESHOLD ≤ (J.countCall f).callCount f →
      (be.added F J.TheJIT).1 = false → (be.found F f J.TheJIT).1 = some p →
        JIT_THRESHOLD = 5 ∧
        (J.execute ops be f).state.JITtedFunctions f = some p ∧
        (J.execute ops be f).value = be.callNative p (J.execute ops be f).state.TheJIT ∧
        (J.execute ops be f).trace =
          [Event.logThresholdMet f, Event.initGlobals, Event.codegen f, Event.addIRModule,
            Event.lookup f, Event.callNative p] ∧
        (∀ e ∈ (J.execute ops be f).trace, e.isInterp = false)) ∧
    (∀ (J : MinDynJIT D σ) (f : String) (F : FunctionAST D) (p : Nat),
      J.FunctionASTs f = some F → J.callCount f = 0 → J.JITtedFunctions f = none →
      (be.added F J.TheJIT).1 = false → (be.found F f J.TheJIT).1 = some p →
        (∀ k : Nat, k < 4 →
          (∀ e ∈ ((J.afterCalls ops be f k).execute ops be f).trace, e.isCodeGen = false) ∧
          ((J.afterCalls ops be f k).execute ops be f).state.JITtedFunctions f = none) ∧
        ((J.afterCalls ops be f 4).execute ops be f).state.JITtedFunctions f = some p ∧
        ((J.afterCalls ops be f 4).execute ops be f).value =
          be.callNative p ((J.afterCalls ops be f 4).execute ops be f).state.TheJIT ∧
        ((J.afterCalls ops be f 4).execute ops be f).trace =
          [Event.logThresholdMet f, Event.initGlobals, Event.codegen f, Event.addIRModule,
            Event.lookup f, Event.callNative p]) := by
  have general : ∀ (J : MinDynJIT D σ) (f : String) (F : FunctionAST D) (p : Nat),
      J.FunctionASTs f = some F → J.JITtedFunctions f = none →
      JIT_THRESHOLD ≤ (J.countCall f).callCount f →
      (be.added F J.TheJIT).1 = false → (be.found F f J.TheJIT).1 = some p →
        (J.execute ops be f).state.JITtedFunctions f = some p ∧
        (J.execute ops be f).value = be.callNative p (J.execute ops be f).state.TheJIT ∧
        (J.execute ops be f).trace =
          [Event.logThresholdMet f, Event.initGlobals, Event.codegen f, Event.addIRModule,
            Event.lookup f, Event.callNative p] := by
    intro J f F p hreg hcache hhot hadd hfound
    rw [execute_compiled ops be J f F p hcache hhot hreg hadd hfound]
    exact ⟨mapSet_same _ _ _, rfl, rfl⟩
  constructor
  · intro J f F p hreg hcache hhot hadd hfound
    obtain ⟨h1, h2, h3⟩ := general J f F p hreg hcache hhot hadd hfound
    refine ⟨rfl, h1, h2, h3, ?_⟩
    rw [h3]
    intro e he
    simp only [List.mem_cons, List.mem_singleton, List.not_mem_nil, or_false] at he
    rcases he with he | he | he | he | he | he <;> subst he <;> rfl
  · intro J f F p hreg hcount hcache hadd hfound
    constructor
    · intro k hk
      have hk2 : (k : Int) + 1 < JIT_THRESHOLD := by unfold JIT_THRESHOLD; omega
      obtain ⟨-, -, -, h5, h6, -⟩ :=
        calls_below_threshold ops be J f F hreg hcount hcache k hk2
      exact ⟨fun e he => (h5 e he).1, h6⟩
    · obtain ⟨h1, h2, h3, h4⟩ :=
        afterCalls_below ops be J f hcount hcache 4 (by unfold JIT_THRESHOLD; norm_num)
      apply general (J.afterCalls ops be f 4) f F p
      · rw [h2]; exact hreg
      · rw [h3]; exact hcache
      · rw [callCount_countCall_of_ne _ _ (by rw [h1]; decide), h1]
        decide
      · rw [h4]; exact hadd
      · rw [h4]; exact hfound

/-- Scenario A, the fifth call: `f() = 2 + 3` is compiled, its address 0 is cached and the
new routine gives `5.0`. -/
theorem C2_witness :
    ((engineF.afterCalls Dbl.ops okBackend "f" 4).execute Dbl.ops okBackend "f").value
      = Dbl.ofInt 5 ∧
    ((engineF.afterCalls Dbl.ops okBackend "f" 4).execute Dbl.ops okBackend "f").state.JITtedFunctions
      "f" = some 0 ∧
    ((engineF.afterCalls Dbl.ops okBackend "f" 4).execute Dbl.ops okBackend "f").trace =
      [Event.logThresholdMet "f", Event.initGlobals, Event.codegen "f", Event.addIRModule,
        Event.lookup "f", Event.callNative 0] := by
  obtain ⟨-, h1, h2, h3⟩ :=
    (C2_threshold_call_compiles Dbl.ops okBackend).2 engineF "f" fnF 0 rfl rfl rfl rfl rfl
  refine ⟨?_, h1, h3⟩
  rw [h2]
  decide

/-- C3: when a compiled entry `p` exists for `f`, `execute(f)` returns the result of calling
the cached routine and its only events are the cache-hit line and that call: no backend
step, no interpreter line.  Nothing is assumed of the call count or of the registry, so
neither the threshold nor the registered body plays a part.  The entry stays through any
later sequence of requests, so every later `execute(f)` is again this cache hit. -/
theorem C3_cache_hit_bypasses_policy {D σ : Type} (ops : DoubleOps D) (be : Backend D σ)
    (J : MinDynJIT D σ) (f : String) (p : Nat) (h : J.JITtedFunctions f = some p) :
    J.execute ops be f =
      ⟨be.callNative p J.TheJIT, J.countCall f, [Event.logExecJIT f, Event.callNative p]⟩ ∧
    (∀ e ∈ (J.execute ops be f).trace, e.isCodeGen = false ∧ e.isInterp = false) ∧
    (∀ rs : List (Request D),
      (J.run ops be rs).JITtedFunctions f = some p ∧
      ((J.run ops be rs).execute ops be f).value = be.callNative p (J.run ops be rs).TheJIT ∧
      ((J.run ops be rs).execute ops be f).trace =
        [Event.logExecJIT f, Event.callNative p]) := by
  have hit := execute_hit ops be J f p h
  refine ⟨hit, ?_, ?_⟩
  · rw [hit]
    intro e he
    simp only [List.mem_cons, List.mem_singleton, List.not_mem_nil, or_false] at he
    rcases he with he | he <;> subst he <;> exact ⟨rfl, rfl⟩
  · intro rs
    have hp := run_keeps_entry ops be rs J f p h
    rw [execute_hit ops be _ f p hp]
    exact ⟨hp, rfl, rfl⟩

/-- Scenario A, the sixth call, after `f` was re-registered with the body `7 * 6`: the
routine compiled on the fifth call still answers `5.0`, and nothing is compiled. -/
theorem C3_witness :
    (((engineF.afterCalls Dbl.ops okBackend "f" 5).run Dbl.ops okBackend
        [Request.addFunction fnF2]).execute Dbl.ops okBackend "f").value = Dbl.ofInt 5 ∧
    (((engineF.afterCalls Dbl.ops okBackend "f" 5).run Dbl.ops okBackend
        [Request.addFunction fnF2]).execute Dbl.ops okBackend "f").trace =
      [Event.logExecJIT "f", Event.callNative 0] := by
  obtain ⟨-, -, h3⟩ := C3_cache_hit_bypasses_policy Dbl.ops okBackend
    (engineF.afterCalls Dbl.ops okBackend "f" 5) "f" 0 (by decide)
  obtain ⟨-, hv, ht⟩ := h3 [Request.addFunction fnF2]
  refine ⟨?_, ht⟩
  rw [hv]
  decide

/-- C4 as stated fails: `execute` of a name that is not registered does return a numeric
result.  On the engine of Scenario A, `execute("undefined_fn")` returns the `double` `0.0`,
the very value `execute("z")` returns for the registered function `z() = 0`, and so does
`interpret("undefined_fn")`. -/
theorem C4_counterexample :
    (engineF.FunctionASTs "undefined_fn").isNone = true ∧
    (engineF.execute Dbl.ops okBackend "undefined_fn").value = Dbl.ofInt 0 ∧
    (engineZ.execute Dbl.ops okBackend "z").value = Dbl.ofInt 0 ∧
    (engineF.execute Dbl.ops okBackend "undefined_fn").value =
      (engineZ.execute Dbl.ops okBackend "z").value ∧
    (engineF.interpret Dbl.ops "undefined_fn").1 = (engineZ.interpret Dbl.ops "z").1 := by
  decide

/-- C4, amended: in a reachable engine, for a name `f` that is not registered, `execute(f)`
reports the unknown function on `stderr` and returns the number `0.0`, the sentinel: when
the incremented count is below the threshold through the interpreter (`Interpreter Error:
Unknown function`), otherwise before any code generation (`Error: Unknown function ...
called`).  No backend step runs, no routine is called, the cache is unchanged, and
`interpret(f)` returns the sentinel with the unknown-function report of the interpreter. -/
theorem C4_unknown_function {D σ : Type} (ops : DoubleOps D) (be : Backend D σ)
    (J : MinDynJIT D σ) (f : String) (hreach : Reachable ops be J)
    (hunreg : J.FunctionASTs f = none) :
    (J.execute ops be f).value = ops.zero ∧
    (J.execute ops be f).trace =
      (if (J.countCall f).callCount f < JIT_THRESHOLD then
        [Event.logInterpreter f ((J.countCall f).callCount f), Event.logInterpUnknown f]
      else [Event.logThresholdMet f, Event.initGlobals, Event.logUnknownFunction f]) ∧
    (∀ e ∈ (J.execute ops be f).trace, e.isCodeGen = false ∧ ∀ p, e ≠ Event.callNative p) ∧
    (J.execute ops be f).state.JITtedFunctions = J.JITtedFunctions ∧
    J.interpret ops f = (ops.zero, [Event.logInterpUnknown f]) := by
  have hinv := reachable_CacheRegistered ops be J hreach
  have hcache : J.JITtedFunctions f = none := by
    cases hc : J.JITtedFunctions f with
    | none => rfl
    | some p =>
      have := hinv f p hc
      rw [hunreg] at this
      cases this
  have hi : J.interpret ops f = (ops.zero, [Event.logInterpUnknown f]) := by
    unfold MinDynJIT.interpret
    rw [hunreg]
  by_cases hlt : (J.countCall f).callCount f < JIT_THRESHOLD
  · rw [execute_interp_post ops be J f hcache hlt, hi, if_pos hlt]
    refine ⟨rfl, rfl, ?_, rfl, rfl⟩
    intro e he
    simp only [List.mem_cons, List.mem_singleton, List.not_mem_nil, or_false] at he
    rcases he with he | he <;> subst he <;> exact ⟨rfl, fun p hp => by cases hp⟩
  · rw [execute_unknown_hot ops be J f hcache (by omega) hunreg, if_neg hlt]
    refine ⟨rfl, rfl, ?_, rfl, hi⟩
    intro e he
    simp only [List.mem_cons, List.mem_singleton, List.not_mem_nil, or_false] at he
    rcases he with he | he | he <;> subst he <;> exact ⟨rfl, fun p hp => by cases hp⟩

/-- Scenario C: `execute("undefined_fn")` on an engine where only `f` is registered and
`undefined_fn` was already requested five times. -/
theorem C4_witness :
    ((engineF.afterCalls Dbl.ops okBackend "undefined_fn" 5).execute Dbl.ops okBackend
        "undefined_fn").value = Dbl.ops.zero ∧
    ((engineF.afterCalls Dbl.ops okBackend "undefined_fn" 5).execute Dbl.ops okBackend
        "undefined_fn").trace =
      [Event.logThresholdMet "undefined_fn", Event.initGlobals,
        Event.logUnknownFunction "undefined_fn"] := by
  obtain ⟨hv, ht, -⟩ := C4_unknown_function Dbl.ops okBackend
    (engineF.afterCalls Dbl.ops okBackend "undefined_fn" 5) "undefined_fn"
    (reachable_run Dbl.ops okBackend engineF
      (reachable_run Dbl.ops okBackend _ (reachable_new Dbl.ops okBackend SimJIT.empty)
        [Request.addFunction fnF]) _)
    rfl
  refine ⟨hv, ?_⟩
  rw [ht]
  decide

/-- C5 as stated fails on a nested unsupported node.  The body `1 + x` of `h` contains a
variable reference; `interpret("h")` writes the unsupported-expression line once, takes `0`
for the operand, applies the addition and returns `1.0`, a value computed from the rest of
the tree and not the sentinel. -/
theorem C5_counterexample :
    fnH.Body.hasUnsupported = true ∧
    engineGH.interpret Dbl.ops "h" = (Dbl.ofInt 1, [Event.logUnsupported]) ∧
    Dbl.ofInt 1 ≠ Dbl.ops.zero ∧
    ¬ AbortsUnsupported Dbl.ops fnH.Body := by
  unfold AbortsUnsupported
  decide

/-- C5, amended: for a tree with an unsupported node the unsupported-expression line is
always written.  When the unsupported node is the root, `interpretExpr` returns the sentinel
`0` and writes that line only.  When the root is a binary node whose `switch` has a case for
the operator, nothing is aborted: both operands are evaluated, left first, an unsupported
operand counting as the `0` its evaluation returned, and the value of the case is
returned. -/
theorem C5_unsupported_reported_not_aborted {D : Type} (ops : DoubleOps D)
    (E : ExprAST D) (context : Context D) (h : E.hasUnsupported = true) :
    Event.logUnsupported ∈ (MinDynJIT.interpretExpr ops E context).2 ∧
    ((∀ Op LHS RHS, E ≠ ExprAST.Binary Op LHS RHS) →
      MinDynJIT.interpretExpr ops E context = (ops.zero, [Event.logUnsupported])) ∧
    (∀ Op LHS RHS v, E = ExprAST.Binary Op LHS RHS →
      switchOp ops Op (MinDynJIT.interpretExpr ops LHS context).1
        (MinDynJIT.interpretExpr ops RHS context).1 = some v →
      MinDynJIT.interpretExpr ops E context =
        (v, (MinDynJIT.interpretExpr ops LHS context).2 ++
          (MinDynJIT.interpretExpr ops RHS context).2)) := by
  refine ⟨interpretExpr_reports_unsupported ops E context h, ?_, ?_⟩
  · intro hne
    cases E with
    | Number Val => simp [ExprAST.hasUnsupported] at h
    | Variable Name => rfl
    | Call Callee Args => rfl
    | If Cond Then Else => rfl
    | Binary Op LHS RHS => exact absurd rfl (hne Op LHS RHS)
  · intro Op LHS RHS v hE hv
    subst hE
    simp only [MinDynJIT.interpretExpr, hv]

/-- The body `1 + x`: the error is reported and the sum `1 + 0` is returned. -/
theorem C5_witness :
    Event.logUnsupported ∈
      (MinDynJIT.interpretExpr Dbl.ops fnH.Body (emptyContext Dbl)).2 ∧
    MinDynJIT.interpretExpr Dbl.ops fnH.Body (emptyContext Dbl) =
      (Dbl.ofInt 1, [] ++ [Event.logUnsupported]) ∧
    MinDynJIT.interpretExpr Dbl.ops fnG.Body (emptyContext Dbl) =
      (Dbl.ops.zero, [Event.logUnsupported]) := by
  have hH := C5_unsupported_reported_not_aborted Dbl.ops fnH.Body (emptyContext Dbl) rfl
  have hG := C5_unsupported_reported_not_aborted Dbl.ops fnG.Body (emptyContext Dbl) rfl
  refine ⟨hH.1, ?_, ?_⟩
  · exact hH.2.2 '+' (lit 1) (ExprAST.Variable "x") (Dbl.ofInt 1) rfl (by decide)
  · exact hG.2.1 (fun Op LHS RHS hE => by cases hE)

/-- C6: for a registered `f` without compiled entry whose count after the increment is at
least the threshold, when adding the module fails, or the module is added and the symbol
lookup fails, `execute(f)` writes the matching error line and returns the sentinel `0`.
The call writes no interpreter line, so the returned value does not come from
`interpret(f)`, and the cache is left as it was, without an entry for `f`. -/
theorem C6_backend_failure_no_fallback {D σ : Type} (ops : DoubleOps D) (be : Backend D σ)
    (J : MinDynJIT D σ) (f : String) (F : FunctionAST D)
    (hreg : J.FunctionASTs f = some F) (hcache : J.JITtedFunctions f = none)
    (hhot : JIT_THRESHOLD ≤ (J.countCall f).callCount f)
    (hfail : (be.added F J.TheJIT).1 = true ∨
      ((be.added F J.TheJIT).1 = false ∧ (be.found F f J.TheJIT).1 = none)) :
    (J.execute ops be f).value = ops.zero ∧
    (J.execute ops be f).trace =
      (if (be.added F J.TheJIT).1 = true then
        [Event.logThresholdMet f, Event.initGlobals, Event.codegen f, Event.addIRModule,
          Event.logAddModuleError]
      else
        [Event.logThresholdMet f, Event.initGlobals, Event.codegen f, Event.addIRModule,
          Event.lookup f, Event.logLookupError]) ∧
    (∀ e ∈ (J.execute ops be f).trace, e.isInterp = false) ∧
    (J.execute ops be f).state.JITtedFunctions = J.JITtedFunctions ∧
    (J.execute ops be f).state.JITtedFunctions f = none := by
  rcases hfail with hadd | ⟨hadd, hfound⟩
  · rw [execute_add_failed ops be J f F hcache hhot hreg hadd, if_pos hadd]
    refine ⟨rfl, rfl, ?_, rfl, hcache⟩
    intro e he
    simp only [List.mem_cons, List.mem_singleton, List.not_mem_nil, or_false] at he
    rcases he with he | he | he | he | he <;> subst he <;> rfl
  · rw [execute_lookup_failed ops be J f F hcache hhot hreg hadd hfound,
      if_neg (by rw [hadd]; decide)]
    refine ⟨rfl, rfl, ?_, rfl, hcache⟩
    intro e he
    simp only [List.mem_cons, List.mem_singleton, List.not_mem_nil, or_false] at he
    rcases he with he | he | he | he | he | he <;> subst he <;> rfl

/-- Scenario A on a backend that rejects every module: the fifth call of `f() = 2 + 3`
returns `0.0`, where the interpreter would have returned `5.0`, and caches nothing. -/
theorem C6_witness :
    ((engineF.afterCalls Dbl.ops addFailBackend "f" 4).execute Dbl.ops addFailBackend
        "f").value = Dbl.ofInt 0 ∧
    ((engineF.afterCalls Dbl.ops addFailBackend "f" 4).interpret Dbl.ops "f").1 = Dbl.ofInt 5 ∧
    ((engineF.afterCalls Dbl.ops addFailBackend "f" 4).execute Dbl.ops addFailBackend
        "f").state.JITtedFunctions "f" = none := by
  obtain ⟨hv, -, -, -, hc⟩ := C6_backend_failure_no_fallback Dbl.ops addFailBackend
    (engineF.afterCalls Dbl.ops addFailBackend "f" 4) "f" fnF (by rfl) (by rfl) (by decide)
    (Or.inl (by rfl))
  exact ⟨hv, by decide, hc⟩

/-- C7 as stated fails at the largest `int`.  After 2147483647 calls `execute("f")` on the
engine of Scenario A the counter of `f` is `INT_MAX`; the next call leaves it at `INT_MIN`:
it is not one more, and it has decreased. -/
theorem C7_counterexample :
    Reachable Dbl.ops okBackend (engineF.afterCalls Dbl.ops okBackend "f" 2147483647) ∧
    (engineF.afterCalls Dbl.ops okBackend "f" 2147483647).callCount "f" = 2147483647 ∧
    ((engineF.afterCalls Dbl.ops okBackend "f" 2147483647).execute Dbl.ops okBackend
      "f").state.callCount "f" = -2147483648 ∧
    ((engineF.afterCalls Dbl.ops okBackend "f" 2147483647).execute Dbl.ops okBackend
      "f").state.callCount "f" <
      (engineF.afterCalls Dbl.ops okBackend "f" 2147483647).callCount "f" := by
  have h0 : engineF.callCount "f" = 0 := by decide
  have hc : (engineF.afterCalls Dbl.ops okBackend "f" 2147483647).callCount "f" =
      2147483647 := by
    rw [afterCalls_callCount Dbl.ops okBackend engineF "f" 2147483647 (by rw [h0]; decide),
      h0]
    decide
  have hn : ((engineF.afterCalls Dbl.ops okBackend "f" 2147483647).execute Dbl.ops okBackend
      "f").state.callCount "f" = -2147483648 := by
    rw [execute_callCount, callCount_countCall, hc]
    decide
  refine ⟨?_, hc, hn, ?_⟩
  · exact reachable_run Dbl.ops okBackend engineF
      (reachable_run Dbl.ops okBackend _ (reachable_new Dbl.ops okBackend SimJIT.empty)
        [Request.addFunction fnF]) _
  · rw [hn, hc]
    decide

/-- C7, amended: every call `execute(name)`, on every path, leaves the counter of `name` at
its previous value plus one as long as that value is below `INT_MAX`, a counter that was
absent at 1, and every other counter as it was; at `INT_MAX` the counter overflows and is
left at `INT_MIN`.  `addFunction` and `interpret` do not write the counters, and no request
lowers a counter that is below `INT_MAX`. -/
theorem C7_execute_counts_once {D σ : Type} (ops : DoubleOps D) (be : Backend D σ)
    (J : MinDynJIT D σ) (name : String) :
    (J.callCount name ≠ INT_MAX →
      (J.execute ops be name).state.callCount name = J.callCount name + 1) ∧
    (J.callCount name = INT_MAX →
      (J.execute ops be name).state.callCount name = INT_MIN) ∧
    (J.FunctionCallCounts name = none →
      (J.execute ops be name).state.FunctionCallCounts name = some 1) ∧
    (∀ g, g ≠ name →
      (J.execute ops be name).state.FunctionCallCounts g = J.FunctionCallCounts g) ∧
    (∀ F, (J.addFunction F).FunctionCallCounts = J.FunctionCallCounts) ∧
    (∀ g, (J.step ops be (Request.interpret g)).FunctionCallCounts = J.FunctionCallCounts) ∧
    (∀ (r : Request D) (g : String), J.callCount g ≠ INT_MAX →
      J.callCount g ≤ (J.step ops be r).callCount g) := by
  refine ⟨?_, ?_, ?_, ?_, fun _ => rfl, fun _ => rfl, ?_⟩
  · intro hne
    rw [execute_callCount, callCount_countCall_of_ne J name hne]
  · intro hmax
    rw [execute_callCount, callCount_countCall, hmax, intIncr_max]
  · intro habs
    rw [execute_FunctionCallCounts, mapSet_same]
    simp [MinDynJIT.callCount, habs, intIncr, INT_MAX]
  · intro g hg
    rw [execute_FunctionCallCounts, mapSet_other _ _ _ _ hg]
  · intro r g hne
    cases r with
    | addFunction F => exact le_refl _
    | interpret f => exact le_refl _
    | execute f =>
      show J.callCount g ≤ (J.execute ops be f).state.callCount g
      rw [execute_callCount]
      by_cases hgf : g = f
      · subst hgf; rw [callCount_countCall_of_ne J g hne]; omega
      · rw [callCount_countCall_other J f g hgf]

/-- The first call of `f` on the engine of Scenario A creates the counter with value 1; a
cache hit (the sixth call) counts as well. -/
theorem C7_witness :
    (engineF.execute Dbl.ops okBackend "f").state.FunctionCallCounts "f" = some 1 ∧
    ((engineF.afterCalls Dbl.ops okBackend "f" 5).execute Dbl.ops okBackend
      "f").state.callCount "f" = 6 := by
  refine ⟨(C7_execute_counts_once Dbl.ops okBackend engineF "f").2.2.1 rfl, ?_⟩
  rw [(C7_execute_counts_once Dbl.ops okBackend
    (engineF.afterCalls Dbl.ops okBackend "f" 5) "f").1 (by decide)]
  decide

/-- C9: `addFunction(d)` stores `d` under its name and leaves the definition of every other
name as it was.  Afterwards `interpret` of that name evaluates the body of `d` in an empty
context, whatever was registered under the name before, and `interpret(g)` of any other
name `g` returns its previous result. -/
theorem C9_addFunction_replaces_one_definition {D σ : Type} (ops : DoubleOps D)
    (J : MinDynJIT D σ) (d : FunctionAST D) :
    (J.addFunction d).FunctionASTs d.Proto.Name = some d ∧
    (∀ g, g ≠ d.Proto.Name → (J.addFunction d).FunctionASTs g = J.FunctionASTs g) ∧
    (J.addFunction d).interpret ops d.Proto.Name =
      MinDynJIT.interpretExpr ops d.Body (emptyContext D) ∧
    (∀ g, g ≠ d.Proto.Name → (J.addFunction d).interpret ops g = J.interpret ops g) := by
  refine ⟨mapSet_same _ _ _, fun g hg => mapSet_other _ _ _ _ hg, ?_, ?_⟩
  · simp [MinDynJIT.interpret, MinDynJIT.addFunction, mapSet]
  · intro g hg
    simp [MinDynJIT.interpret, MinDynJIT.addFunction, mapSet, hg]

/-- Replacing `f() = 2 + 3` by `f() = 7 * 6`: `interpret("f")` gives `42.0`, the old body is
no longer used, and `interpret("g")` still reports the unknown function. -/
theorem C9_witness :
    (engineF.addFunction fnF2).interpret Dbl.ops "f" = (Dbl.ofInt 42, []) ∧
    engineF.interpret Dbl.ops "f" = (Dbl.ofInt 5, []) ∧
    (engineF.addFunction fnF2).interpret Dbl.ops "g" = engineF.interpret Dbl.ops "g" := by
  obtain ⟨-, -, h3, h4⟩ := C9_addFunction_replaces_one_definition Dbl.ops engineF fnF2
  exact ⟨h3.trans (by decide), by decide, h4 "g" (by decide)⟩

/-- C10: on a tree built from numeric literals and binary nodes with operator `+`, `-`, `*`
or `/`, `interpretExpr` returns the value of the reference evaluation and writes nothing: a
literal yields its value, a binary node the operator applied to the values of its left and
right operands.  Division is applied without inspecting the divisor: for every right
operand, a zero included, the node yields the quotient of the two operand values and no
error line. -/
theorem C10_arithmetic_matches_reference {D : Type} (ops : DoubleOps D)
    (E : ExprAST D) (context : Context D) (h : E.isArith = true) :
    (∃ v, refEval ops E = some v ∧ MinDynJIT.interpretExpr ops E context = (v, [])) ∧
    (∀ Val, E = ExprAST.Number Val → MinDynJIT.interpretExpr ops E context = (Val, [])) ∧
    (∀ LHS RHS, E = ExprAST.Binary '/' LHS RHS →
      MinDynJIT.interpretExpr ops E context =
        (ops.div (MinDynJIT.interpretExpr ops LHS context).1
          (MinDynJIT.interpretExpr ops RHS context).1, [])) := by
  refine ⟨interpretExpr_arith ops E context h, ?_, ?_⟩
  · intro Val hE
    subst hE
    rfl
  · intro LHS RHS hE
    subst hE
    simp only [ExprAST.isArith, Bool.and_eq_true] at h
    obtain ⟨_, hl2⟩ := interpretExpr_arith ops LHS context h.1.2
    obtain ⟨_, hr2⟩ := interpretExpr_arith ops RHS context h.2
    simp [MinDynJIT.interpretExpr, switchOp, hl2.2, hr2.2]

/-- The body `2 + 3` evaluates to `5.0`, and `1 / 0` to the quotient, an infinity, without an
error line. -/
theorem C10_witness :
    MinDynJIT.interpretExpr Dbl.ops fnF.Body (emptyContext Dbl) = (Dbl.ofInt 5, []) ∧
    refEval Dbl.ops fnF.Body = some (Dbl.ofInt 5) ∧
    MinDynJIT.interpretExpr Dbl.ops fnDiv.Body (emptyContext Dbl) = (Dbl.inf false, []) := by
  obtain ⟨⟨v, hv1, hv2⟩, -, -⟩ :=
    C10_arithmetic_matches_reference Dbl.ops fnF.Body (emptyContext Dbl) rfl
  obtain ⟨-, -, hd⟩ :=
    C10_arithmetic_matches_reference Dbl.ops fnDiv.Body (emptyContext Dbl) rfl
  refine ⟨by decide, by decide, ?_⟩
  exact (hd (lit 1) (lit 0) rfl).trans (by decide)

/-! ## Further facts -/

/-- A supported tree is evaluated without any line being written. -/
theorem interpretExpr_supported {D : Type} (ops : DoubleOps D) :
    ∀ (E : ExprAST D) (context : Context D), E.isSupported = true →
      (MinDynJIT.interpretExpr ops E context).2 = []
  | .Number _, _, _ => rfl
  | .Variable _, _, h => by simp [ExprAST.isSupported] at h
  | .Call _ _, _, h => by simp [ExprAST.isSupported] at h
  | .If _ _ _, _, h => by simp [ExprAST.isSupported] at h
  | .Binary Op LHS RHS, context, h => by
    simp only [ExprAST.isSupported, Bool.and_eq_true, Bool.or_eq_true, decide_eq_true_eq] at h
    obtain ⟨⟨hop, hl⟩, hr⟩ := h
    have hl2 := interpretExpr_supported ops LHS context hl
    have hr2 := interpretExpr_supported ops RHS context hr
    rcases hop with ((((hop | hop) | hop) | hop) | hop) | hop <;> subst hop <;>
      simp [MinDynJIT.interpretExpr, switchOp, hl2, hr2]

/-- The `switch` has a case for `<`. -/
theorem switchOp_lt {D : Type} (ops : DoubleOps D) (L R : D) :
    switchOp ops '<' L R = some (if ops.lt L R then ops.one else ops.zero) := by
  simp [switchOp]

/-- The `switch` has a case for `>`. -/
theorem switchOp_gt {D : Type} (ops : DoubleOps D) (L R : D) :
    switchOp ops '>' L R = some (if ops.gt L R then ops.one else ops.zero) := by
  simp [switchOp]

/-- The `switch` has no case for a character outside the six operators. -/
theorem switchOp_none {D : Type} (ops : DoubleOps D) (Op : Char) (L R : D)
    (h1 : Op ≠ '+') (h2 : Op ≠ '-') (h3 : Op ≠ '*') (h4 : Op ≠ '/') (h5 : Op ≠ '<')
    (h6 : Op ≠ '>') : switchOp ops Op L R = none := by
  simp [switchOp, h1, h2, h3, h4, h5, h6]

/-- What a binary node yields when the `switch` has a case. -/
theorem interpretExpr_binary_some {D : Type} (ops : DoubleOps D) (Op : Char)
    (LHS RHS : ExprAST D) (context : Context D) (v : D)
    (h : switchOp ops Op (MinDynJIT.interpretExpr ops LHS context).1
      (MinDynJIT.interpretExpr ops RHS context).1 = some v) :
    MinDynJIT.interpretExpr ops (ExprAST.Binary Op LHS RHS) context =
      (v, (MinDynJIT.interpretExpr ops LHS context).2 ++
        (MinDynJIT.interpretExpr ops RHS context).2) := by
  simp only [MinDynJIT.interpretExpr, h]

/-- What a binary node yields when the `switch` has no case. -/
theorem interpretExpr_binary_none {D : Type} (ops : DoubleOps D) (Op : Char)
    (LHS RHS : ExprAST D) (context : Context D)
    (h : switchOp ops Op (MinDynJIT.interpretExpr ops LHS context).1
      (MinDynJIT.interpretExpr ops RHS context).1 = none) :
    MinDynJIT.interpretExpr ops (ExprAST.Binary Op LHS RHS) context =
      (ops.zero, (MinDynJIT.interpretExpr ops LHS context).2 ++
        (MinDynJIT.interpretExpr ops RHS context).2 ++ [Event.logUnsupported]) := by
  simp only [MinDynJIT.interpretExpr, h]

/-! ## The claims, continued -/

/-- C11: a binary node with operator `<` or `>` whose operands are supported expressions
yields exactly `1.0` when the comparison of the value of the left operand with the value of
the right operand is true and exactly `0.0` when it is false, and writes nothing; so a
comparison never yields a value other than these two. -/
theorem C11_comparison_yields_one_or_zero {D : Type} (ops : DoubleOps D) (Op : Char)
    (LHS RHS : ExprAST D) (context : Context D) (hop : Op = '<' ∨ Op = '>')
    (hl : LHS.isSupported = true) (hr : RHS.isSupported = true) :
    (Op = '<' →
      MinDynJIT.interpretExpr ops (ExprAST.Binary Op LHS RHS) context =
        ((if ops.lt (MinDynJIT.interpretExpr ops LHS context).1
            (MinDynJIT.interpretExpr ops RHS context).1 = true then ops.one else ops.zero),
          [])) ∧
    (Op = '>' →
      MinDynJIT.interpretExpr ops (ExprAST.Binary Op LHS RHS) context =
        ((if ops.gt (MinDynJIT.interpretExpr ops LHS context).1
            (MinDynJIT.interpretExpr ops RHS context).1 = true then ops.one else ops.zero),
          [])) ∧
    ((MinDynJIT.interpretExpr ops (ExprAST.Binary Op LHS RHS) context).1 = ops.one ∨
      (MinDynJIT.interpretExpr ops (ExprAST.Binary Op LHS RHS) context).1 = ops.zero) := by
  have hl2 := interpretExpr_supported ops LHS context hl
  have hr2 := interpretExpr_supported ops RHS context hr
  have hlt : MinDynJIT.interpretExpr ops (ExprAST.Binary '<' LHS RHS) context =
      ((if ops.lt (MinDynJIT.interpretExpr ops LHS context).1
          (MinDynJIT.interpretExpr ops RHS context).1 = true then ops.one else ops.zero),
        []) := by
    rw [interpretExpr_binary_some ops '<' LHS RHS context _ (switchOp_lt ops _ _), hl2, hr2]
    rfl
  have hgt : MinDynJIT.interpretExpr ops (ExprAST.Binary '>' LHS RHS) context =
      ((if ops.gt (MinDynJIT.interpretExpr ops LHS context).1
          (MinDynJIT.interpretExpr ops RHS context).1 = true then ops.one else ops.zero),
        []) := by
    rw [interpretExpr_binary_some ops '>' LHS RHS context _ (switchOp_gt ops _ _), hl2, hr2]
    rfl
  refine ⟨fun h => by subst h; exact hlt, fun h => by subst h; exact hgt, ?_⟩
  rcases hop with hop | hop <;> subst hop
  · rw [hlt]
    by_cases hc : ops.lt (MinDynJIT.interpretExpr ops LHS context).1
        (MinDynJIT.interpretExpr ops RHS context).1 = true
    · left; simp [hc]
    · right; simp [hc]
  · rw [hgt]
    by_cases hc : ops.gt (MinDynJIT.interpretExpr ops LHS context).1
        (MinDynJIT.interpretExpr ops RHS context).1 = true
    · left; simp [hc]
    · right; simp [hc]

/-- The comparison `2 < 3` yields `1.0` and `2 > 3` yields `0.0`. -/
theorem C11_witness :
    MinDynJIT.interpretExpr Dbl.ops exprLt (emptyContext Dbl) = (Dbl.ofInt 1, []) ∧
    MinDynJIT.interpretExpr Dbl.ops exprGt (emptyContext Dbl) = (Dbl.ofInt 0, []) := by
  obtain ⟨h1, -, -⟩ := C11_comparison_yields_one_or_zero Dbl.ops '<' (lit 2) (lit 3)
    (emptyContext Dbl) (Or.inl rfl) rfl rfl
  obtain ⟨-, h2, -⟩ := C11_comparison_yields_one_or_zero Dbl.ops '>' (lit 2) (lit 3)
    (emptyContext Dbl) (Or.inr rfl) rfl rfl
  exact ⟨(h1 rfl).trans (by decide), (h2 rfl).trans (by decide)⟩

/-- C12: a compiled entry is write-once.  If the cache holds the entry `e` for `f`, it holds
the same `e` for `f` after any request (`addFunction`, `execute`, `interpret`, of any name)
and after any sequence of requests; and every later `execute(f)` is a cache hit that asks
nothing of the backend and writes no interpreter line, so `f` is neither recompiled nor
interpreted again. -/
theorem C12_compiled_entry_write_once {D σ : Type} (ops : DoubleOps D) (be : Backend D σ)
    (J : MinDynJIT D σ) (f : String) (e : Nat) (h : J.JITtedFunctions f = some e) :
    (∀ r : Request D, (J.step ops be r).JITtedFunctions f = some e) ∧
    (∀ rs : List (Request D), (J.run ops be rs).JITtedFunctions f = some e) ∧
    (∀ rs : List (Request D), ∀ ev ∈ ((J.run ops be rs).execute ops be f).trace,
      ev.isCodeGen = false ∧ ev.isInterp = false) := by
  refine ⟨fun r => step_keeps_entry ops be J r f e h,
    fun rs => run_keeps_entry ops be rs J f e h, ?_⟩
  intro rs ev hev
  rw [execute_hit ops be _ f e (run_keeps_entry ops be rs J f e h)] at hev
  simp only [List.mem_cons, List.mem_singleton, List.not_mem_nil, or_false] at hev
  rcases hev with hev | hev <;> subst hev <;> exact ⟨rfl, rfl⟩

/-- Scenario A after the fifth call: the entry of `f` is the address 0, and it is still the
address 0 after `f` is re-registered, `g` is registered, and both are executed. -/
theorem C12_witness :
    (engineF.afterCalls Dbl.ops okBackend "f" 5).JITtedFunctions "f" = some 0 ∧
    ((engineF.afterCalls Dbl.ops okBackend "f" 5).run Dbl.ops okBackend
      [Request.addFunction fnF2, Request.addFunction fnG, Request.execute "f",
        Request.execute "g", Request.interpret "f"]).JITtedFunctions "f" = some 0 := by
  have h : (engineF.afterCalls Dbl.ops okBackend "f" 5).JITtedFunctions "f" = some 0 := by
    decide
  exact ⟨h, (C12_compiled_entry_write_once Dbl.ops okBackend _ "f" 0 h).2.1 _⟩

/-- Engine events contribute nothing to `stdout`. -/
theorem printed_engine {D : Type} (es : List Event) (rest : List (Output D)) :
    printed (es.map Output.engine ++ rest) = printed rest := by
  induction es with
  | nil => rfl
  | cons e es ih => simpa [printed] using ih

/-- The driver on a source of one item. -/
theorem run_single {D σ : Type} (ops : DoubleOps D) (be : Backend D σ) (jit : σ)
    (item : Parsed D) (enableJIT : Bool) :
    (run ops be jit [item] enableJIT).2 =
      (runItem ops be enableJIT (MinDynJIT.new D jit) item).2 := by
  simp [run, runLoop]

/-- C13, on the code: for a top-level expression the driver prints one value in each mode.
With `enableJIT` it registers the anonymous function and prints what `execute` returns; for
a name without compiled entry and below the threshold that is the value of the expression.
Without `enableJIT` it leaves the engine as it is, the expression unregistered, and prints
what `interpret` finds under the name in the registry as it was: the body of the expression
plays no part, and for a name that is not registered the unknown-function line is written
and the sentinel `0` is printed. -/
theorem C13_top_level_expression_by_mode {D σ : Type} (ops : DoubleOps D) (be : Backend D σ)
    (Jit : MinDynJIT D σ) (E : FunctionAST D) :
    printed (runItem ops be true Jit (Parsed.topLevelExpr (some E))).2 =
      [((Jit.addFunction E).execute ops be E.Proto.Name).value] ∧
    (Jit.JITtedFunctions E.Proto.Name = none →
      Jit.callCount E.Proto.Name + 1 < JIT_THRESHOLD →
      printed (runItem ops be true Jit (Parsed.topLevelExpr (some E))).2 =
        [(MinDynJIT.interpretExpr ops E.Body (emptyContext D)).1]) ∧
    (runItem ops be false Jit (Parsed.topLevelExpr (some E))).1 = Jit ∧
    printed (runItem ops be false Jit (Parsed.topLevelExpr (some E))).2 =
      [(Jit.interpret ops E.Proto.Name).1] ∧
    (Jit.FunctionASTs E.Proto.Name = none →
      (runItem ops be false Jit (Parsed.topLevelExpr (some E))).2 =
        [Output.logTopLevelInterpreter,
          Output.engine (Event.logInterpUnknown E.Proto.Name),
          Output.evaluatedTo ops.zero]) := by
  have hjit : printed (runItem ops be true Jit (Parsed.topLevelExpr (some E))).2 =
      [((Jit.addFunction E).execute ops be E.Proto.Name).value] := by
    simp only [runItem, if_true]
    rw [printed_engine]
    rfl
  refine ⟨hjit, ?_, rfl, ?_, ?_⟩
  · intro hcache hlt
    rw [hjit]
    have hcache2 : (Jit.addFunction E).JITtedFunctions E.Proto.Name = none := hcache
    have hlt2 : (Jit.addFunction E).callCount E.Proto.Name + 1 < JIT_THRESHOLD := hlt
    have hi : (Jit.addFunction E).interpret ops E.Proto.Name =
        MinDynJIT.interpretExpr ops E.Body (emptyContext D) := by
      simp [MinDynJIT.interpret, MinDynJIT.addFunction, mapSet]
    rw [execute_interp ops be _ _ hcache2 hlt2, hi]
  · simp only [runItem, Bool.false_eq_true, if_false]
    show printed (Output.logTopLevelInterpreter ::
      ((Jit.interpret ops E.Proto.Name).2.map Output.engine ++
        [Output.evaluatedTo (Jit.interpret ops E.Proto.Name).1])) = _
    simp only [printed]
    rw [printed_engine]
    rfl
  · intro hunreg
    simp [runItem, MinDynJIT.interpret, hunreg]

/-- The source `2+3;` as the parser delivers it.  Without `--jit` the driver writes the
unknown-function error and prints `0.0`; with `--jit` it prints `5.0`, the value of the
expression. -/
theorem C13_witness :
    (run Dbl.ops okBackend SimJIT.empty [Parsed.topLevelExpr (some fnAnon)] false).2 =
      [Output.logTopLevelInterpreter,
        Output.engine (Event.logInterpUnknown "__anon_expr"),
        Output.evaluatedTo (Dbl.ofInt 0)] ∧
    printed (run Dbl.ops okBackend SimJIT.empty [Parsed.topLevelExpr (some fnAnon)] true).2 =
      [Dbl.ofInt 5] ∧
    (MinDynJIT.interpretExpr Dbl.ops fnAnon.Body (emptyContext Dbl)).1 = Dbl.ofInt 5 := by
  obtain ⟨-, hjit, -, -, hint⟩ := C13_top_level_expression_by_mode Dbl.ops okBackend
    (MinDynJIT.new Dbl SimJIT.empty) fnAnon
  have h1 := hint rfl
  have h2 := hjit rfl (by decide)
  refine ⟨?_, ?_, by decide⟩
  · rw [run_single, h1]
    rfl
  · rw [run_single, h2]
    decide

/-- C14 as stated fails once a counter has overflowed.  After 2147483648 calls
`execute("f")` on the engine of Scenario A, a reachable engine, `f` has the compiled entry
made on the fifth call and the count `INT_MIN`, which is below the threshold. -/
theorem C14_counterexample :
    Reachable Dbl.ops okBackend (engineF.afterCalls Dbl.ops okBackend "f" 2147483648) ∧
    (engineF.afterCalls Dbl.ops okBackend "f" 2147483648).JITtedFunctions "f" = some 0 ∧
    (engineF.afterCalls Dbl.ops okBackend "f" 2147483648).callCount "f" = -2147483648 ∧
    ¬ JIT_THRESHOLD ≤ (engineF.afterCalls Dbl.ops okBackend "f" 2147483648).callCount "f" := by
  have h0 : engineF.callCount "f" = 0 := by decide
  have hc : (engineF.afterCalls Dbl.ops okBackend "f" 2147483647).callCount "f" =
      2147483647 := by
    rw [afterCalls_callCount Dbl.ops okBackend engineF "f" 2147483647 (by rw [h0]; decide),
      h0]
    decide
  have hsplit : engineF.afterCalls Dbl.ops okBackend "f" 2147483648 =
      ((engineF.afterCalls Dbl.ops okBackend "f" 2147483647).execute Dbl.ops okBackend
        "f").state :=
    afterCalls_succ Dbl.ops okBackend engineF "f" 2147483647
  have hn : (engineF.afterCalls Dbl.ops okBackend "f" 2147483648).callCount "f" =
      -2147483648 := by
    rw [hsplit, execute_callCount, callCount_countCall, hc]
    decide
  have h5 : (engineF.afterCalls Dbl.ops okBackend "f" 5).JITtedFunctions "f" = some 0 := by
    decide
  have he : (engineF.afterCalls Dbl.ops okBackend "f" 2147483648).JITtedFunctions "f" =
      some 0 := by
    rw [afterCalls_add Dbl.ops okBackend engineF "f" 5 2147483643 2147483648 (by norm_num)]
    exact afterCalls_keeps_entry Dbl.ops okBackend _ "f" "f" 0 2147483643 h5
  refine ⟨?_, he, hn, ?_⟩
  · exact reachable_run Dbl.ops okBackend engineF
      (reachable_run Dbl.ops okBackend _ (reachable_new Dbl.ops okBackend SimJIT.empty)
        [Request.addFunction fnF]) _
  · rw [hn]
    decide

/-- C14, amended: in the engine a sequence `rs` of `addFunction`, `execute` and `interpret`
calls leads to from a freshly constructed one, every name `g` with a compiled entry is
registered; and as long as `rs` holds at most `INT_MAX` calls `execute(g)`, so that the
counter of `g` has not overflowed, its call count is the number of these calls and is at
least the threshold, which is 5. -/
theorem C14_cached_names_registered_and_hot {D σ : Type} (ops : DoubleOps D)
    (be : Backend D σ) (jit : σ) (rs : List (Request D)) (g : String) (p : Nat)
    (hentry : ((MinDynJIT.new D jit).run ops be rs).JITtedFunctions g = some p) :
    JIT_THRESHOLD = 5 ∧
    (((MinDynJIT.new D jit).run ops be rs).FunctionASTs g).isSome = true ∧
    ((callsOf g rs : Int) ≤ INT_MAX →
      JIT_THRESHOLD ≤ ((MinDynJIT.new D jit).run ops be rs).callCount g ∧
      ((MinDynJIT.new D jit).run ops be rs).callCount g = (callsOf g rs : Int)) := by
  refine ⟨rfl, reachable_CacheRegistered ops be _ ⟨jit, rs, rfl⟩ g p hentry, ?_⟩
  intro hb
  have h0 : (MinDynJIT.new D jit).callCount g = 0 := rfl
  obtain ⟨h1, h2⟩ := run_entry_hot ops be g rs (MinDynJIT.new D jit)
    (fun q hq => by cases hq) (by rw [h0]; omega)
  refine ⟨h1 p hentry, ?_⟩
  rw [h2, h0]
  omega

/-- Scenario A after six calls: `f` is cached, registered, and has count 6. -/
theorem C14_witness :
    (((MinDynJIT.new Dbl SimJIT.empty).run Dbl.ops okBackend
      (Request.addFunction fnF :: List.replicate 6 (Request.execute "f"))).FunctionASTs
        "f").isSome = true ∧
    ((MinDynJIT.new Dbl SimJIT.empty).run Dbl.ops okBackend
      (Request.addFunction fnF :: List.replicate 6 (Request.execute "f"))).callCount "f"
        = 6 := by
  obtain ⟨-, hreg, hcnt⟩ := C14_cached_names_registered_and_hot Dbl.ops okBackend
    SimJIT.empty (Request.addFunction fnF :: List.replicate 6 (Request.execute "f")) "f" 0
    (by decide)
  exact ⟨hreg, (hcnt (by decide)).2.trans (by decide)⟩

/-- The result of `interpretExpr` does not depend on `context`. -/
theorem interpretExpr_context {D : Type} (ops : DoubleOps D) :
    ∀ (E : ExprAST D) (c1 c2 : Context D),
      MinDynJIT.interpretExpr ops E c1 = MinDynJIT.interpretExpr ops E c2
  | .Number _, _, _ => rfl
  | .Variable _, _, _ => rfl
  | .Call _ _, _, _ => rfl
  | .If _ _ _, _, _ => rfl
  | .Binary Op LHS RHS, c1, c2 => by
    simp only [MinDynJIT.interpretExpr, interpretExpr_context ops LHS c1 c2,
      interpretExpr_context ops RHS c1 c2]

/-- Requests other than `addFunction` leave the registry as it is. -/
theorem run_FunctionASTs {D σ : Type} (ops : DoubleOps D) (be : Backend D σ)
    (rs : List (Request D)) : ∀ (J : MinDynJIT D σ),
    (∀ r ∈ rs, r.isAddFunction = false) →
      (J.run ops be rs).FunctionASTs = J.FunctionASTs := by
  induction rs with
  | nil => intro J _; rfl
  | cons r rs ih =>
    intro J h
    rw [run_cons, ih _ (fun t ht => h t (List.mem_cons_of_mem _ ht))]
    have hr := h r (List.mem_cons_self _ _)
    cases r with
    | addFunction F => simp [Request.isAddFunction] at hr
    | execute f => exact execute_FunctionASTs ops be J f
    | interpret f => rfl

/-- Calls of `interpret` alone leave the engine as it is. -/
theorem run_interprets {D σ : Type} (ops : DoubleOps D) (be : Backend D σ)
    (rs : List (Request D)) : ∀ (J : MinDynJIT D σ),
    (∀ r ∈ rs, r.isInterpret = true) → J.run ops be rs = J := by
  induction rs with
  | nil => intro J _; rfl
  | cons r rs ih =>
    intro J h
    rw [run_cons, ih _ (fun t ht => h t (List.mem_cons_of_mem _ ht))]
    have hr := h r (List.mem_cons_self _ _)
    cases r with
    | addFunction F => simp [Request.isInterpret] at hr
    | execute f => simp [Request.isInterpret] at hr
    | interpret f => rfl

/-- C16: `interpret(name)` is read-only and deterministic.  The engine after an `interpret`
request, or after any number of them, is the engine before: counters, cache and registry
are unchanged, so no function is counted or promoted.  The result is determined by what the
registry holds under `name`: two engines that agree there give the same result, and so do
two calls separated by any requests other than `addFunction`.  For a registered name it is
the evaluation of the body, the same for every context the evaluation could start from. -/
theorem C16_interpret_read_only_deterministic {D σ : Type} (ops : DoubleOps D)
    (be : Backend D σ) (J : MinDynJIT D σ) (name : String) :
    J.step ops be (Request.interpret name) = J ∧
    (∀ rs : List (Request D), (∀ r ∈ rs, r.isInterpret = true) → J.run ops be rs = J) ∧
    (∀ K : MinDynJIT D σ, K.FunctionASTs name = J.FunctionASTs name →
      K.interpret ops name = J.interpret ops name) ∧
    (∀ rs : List (Request D), (∀ r ∈ rs, r.isAddFunction = false) →
      (J.run ops be rs).interpret ops name = J.interpret ops name) ∧
    (∀ F, J.FunctionASTs name = some F → ∀ context : Context D,
      J.interpret ops name = MinDynJIT.interpretExpr ops F.Body context) := by
  have hdep : ∀ K : MinDynJIT D σ, K.FunctionASTs name = J.FunctionASTs name →
      K.interpret ops name = J.interpret ops name := by
    intro K hK
    unfold MinDynJIT.interpret
    rw [hK]
  refine ⟨rfl, fun rs h => run_interprets ops be rs J h, hdep, ?_, ?_⟩
  · intro rs h
    exact hdep _ (by rw [run_FunctionASTs ops be rs J h])
  · intro F hF context
    unfold MinDynJIT.interpret
    rw [hF]
    exact interpretExpr_context ops F.Body _ _

/-- Scenario A: `interpret("f")` gives `5.0` before and after five `execute("f")` calls and
another `interpret`, and an `interpret` request leaves the count of `f` at 0. -/
theorem C16_witness :
    engineF.interpret Dbl.ops "f" = (Dbl.ofInt 5, []) ∧
    (engineF.run Dbl.ops okBackend
      (Request.interpret "f" :: List.replicate 5 (Request.execute "f"))).interpret
        Dbl.ops "f" = (Dbl.ofInt 5, []) ∧
    (engineF.step Dbl.ops okBackend (Request.interpret "f")).callCount "f" = 0 := by
  obtain ⟨h1, -, -, h4, -⟩ :=
    C16_interpret_read_only_deterministic Dbl.ops okBackend engineF "f"
  have h5 : engineF.interpret Dbl.ops "f" = (Dbl.ofInt 5, []) := by decide
  refine ⟨h5, ?_, ?_⟩
  · rw [h4 _ (by decide)]
    exact h5
  · rw [h1]
    decide

/-- C17: a binary node whose operator is none of `+`, `-`, `*`, `/`, `<`, `>` leaves the
`switch` without a value: after both operands have been evaluated, left first, the
unsupported-expression line is written and the node yields the sentinel `0`, whatever the
operands are and evaluate to. -/
theorem C17_unknown_operator_falls_through {D : Type} (ops : DoubleOps D) (Op : Char)
    (LHS RHS : ExprAST D) (context : Context D)
    (h1 : Op ≠ '+') (h2 : Op ≠ '-') (h3 : Op ≠ '*') (h4 : Op ≠ '/') (h5 : Op ≠ '<')
    (h6 : Op ≠ '>') :
    MinDynJIT.interpretExpr ops (ExprAST.Binary Op LHS RHS) context =
      (ops.zero, (MinDynJIT.interpretExpr ops LHS context).2 ++
        (MinDynJIT.interpretExpr ops RHS context).2 ++ [Event.logUnsupported]) ∧
    (MinDynJIT.interpretExpr ops (ExprAST.Binary Op LHS RHS) context).1 = ops.zero ∧
    Event.logUnsupported ∈
      (MinDynJIT.interpretExpr ops (ExprAST.Binary Op LHS RHS) context).2 := by
  have h := interpretExpr_binary_none ops Op LHS RHS context
    (switchOp_none ops Op _ _ h1 h2 h3 h4 h5 h6)
  refine ⟨h, by rw [h], ?_⟩
  rw [h]
  exact List.mem_append_right _ (List.mem_singleton.mpr rfl)

/-- The node `7 % 2` yields `0.0` with one error line; with the unsupported operands `x` and
`y` the lines of the operands come first. -/
theorem C17_witness :
    MinDynJIT.interpretExpr Dbl.ops exprMod (emptyContext Dbl) =
      (Dbl.ofInt 0, [Event.logUnsupported]) ∧
    MinDynJIT.interpretExpr Dbl.ops
      (ExprAST.Binary '%' (ExprAST.Variable "x") (ExprAST.Variable "y")) (emptyContext Dbl) =
      (Dbl.ofInt 0, [Event.logUnsupported, Event.logUnsupported, Event.logUnsupported]) := by
  have ha := (C17_unknown_operator_falls_through Dbl.ops '%' (lit 7) (lit 2)
    (emptyContext Dbl) (by decide) (by decide) (by decide) (by decide) (by decide)
    (by decide)).1
  have hb := (C17_unknown_operator_falls_through Dbl.ops '%' (ExprAST.Variable "x")
    (ExprAST.Variable "y") (emptyContext Dbl) (by decide) (by decide) (by decide)
    (by decide) (by decide) (by decide)).1
  exact ⟨ha.trans (by decide), hb.trans (by decide)⟩

end MinDyn
